import Mathlib

set_option maxHeartbeats 1000000
set_option maxRecDepth 100000

/-!
Shallow embedding of the parser-combinator front end in `src/Part-1/compiler.ts`.

Strings are modelled as `List Char`; a TypeScript sticky (`y`-flagged) regular
expression is modelled as a function from the text at the match position to the
optionally matched prefix.  A TypeScript parser returns `ParseResult<T> | null`
and may additionally throw an exception or fail to terminate; the outcome type
`POut` makes all four cases explicit (`ok`, `noMatch`, `err`, `diverge`).
The mutually recursive grammar cells (`expression`, `statement`) are modelled
by fuel-indexed unfolding (`expressionF`, `statementF`): fuel `0` stands for an
unbounded chain of cell unfoldings, i.e. non-termination (`diverge`), never for
a parse failure.
-/

/-- Character class of `[ \n\t\r]` (the whitespace pattern). -/
def isWsChar (c : Char) : Bool := c = ' ' || c = '\n' || c = '\t' || c = '\r'

/-- JavaScript line terminators, which `.` does not match. -/
def isLineTerm (c : Char) : Bool := c = '\n' || c = '\r' || c.toNat = 8232 || c.toNat = 8233

/-- Character class of `[0-9]`. -/
def isDigitChar (c : Char) : Bool := decide (48 ≤ c.toNat ∧ c.toNat ≤ 57)

/-- Character class of `\w`, i.e. `[A-Za-z0-9_]`. -/
def isWordChar (c : Char) : Bool :=
  decide ((65 ≤ c.toNat ∧ c.toNat ≤ 90) ∨ (97 ≤ c.toNat ∧ c.toNat ≤ 122) ∨
    (48 ≤ c.toNat ∧ c.toNat ≤ 57) ∨ c.toNat = 95)

/-- Character class of `[a-zA-Z_]` (identifier start). -/
def isIdStart (c : Char) : Bool :=
  decide ((65 ≤ c.toNat ∧ c.toNat ≤ 90) ∨ (97 ≤ c.toNat ∧ c.toNat ≤ 122) ∨ c.toNat = 95)

/-- A sticky (anchored) regular expression, as used by `Source.match`: it is
applied to the text starting at the current index and returns the matched
prefix on success. -/
def Regexp : Type := List Char → Option (List Char)

/-- Literal-text pattern, e.g. `/;/y`, `/==/y`, `/[(]/y`. -/
def litRegexp (lit : List Char) : Regexp := fun cs =>
  if lit.isPrefixOf cs then some lit else none

/-- Word-boundary test for the position right after a keyword: `\b` succeeds
there iff the input is exhausted or the next character is not a word character
(the keyword's last character is always a word character). -/
def boundaryOk : List Char → Bool
  | [] => true
  | c :: _ => !isWordChar c

/-- Keyword pattern such as `/function\b/y`: the literal word followed by a
word boundary. -/
def kwRegexp (word : List Char) : Regexp := fun cs =>
  if word.isPrefixOf cs && boundaryOk (cs.drop word.length) then some word else none

/-- The whitespace pattern `/[ \n\t\r]+/y` (greedy, at least one character). -/
def wsRegexp : Regexp := fun cs =>
  match cs.takeWhile isWsChar with
  | [] => none
  | c :: t => some (c :: t)

/-- The line-comment pattern `/[/][/].*/y`: `//` followed by everything up to
(not including) the next line terminator. -/
def lineCommentRegexp : Regexp := fun cs =>
  match cs with
  | '/' :: '/' :: rest => some ('/' :: '/' :: rest.takeWhile (fun c => !isLineTerm c))
  | _ => none

/-- Test whether a list starts with the two characters `*/`. -/
def isCloseAt : List Char → Bool
  | '*' :: '/' :: _ => true
  | _ => false

/-- The block-comment pattern `/[/][*].*[*][/]/sy`: `/*`, then a greedy
dot-all `.*`, then `*/`.  Greediness with backtracking means the match extends
to the last occurrence of `*/`. -/
def blockCommentRegexp : Regexp := fun cs =>
  match cs with
  | '/' :: '*' :: rest =>
    match ((List.range rest.length).filter fun m => isCloseAt (rest.drop m)).getLast? with
    | some m => some (('/' :: '*' :: rest).take (2 + m + 2))
    | none => none
  | _ => none

/-- The integer-literal pattern `/[0-9]+/y`. -/
def numberRegexp : Regexp := fun cs =>
  match cs.takeWhile isDigitChar with
  | [] => none
  | c :: t => some (c :: t)

/-- The identifier pattern `/[a-zA-Z_][a-zA-Z0-9_]*/y`. -/
def idRegexp : Regexp := fun cs =>
  match cs with
  | c :: rest => if isIdStart c then some (c :: rest.takeWhile isWordChar) else none
  | [] => none

/-- The `Source` class: the string being parsed together with the index of the
position being matched. -/
structure Source where
  string : List Char
  index : Nat
deriving DecidableEq

/-- The `ParseResult` class: a parsed value and the source position the parser
left off at. -/
structure ParseResult (T : Type) where
  value : T
  source : Source
deriving DecidableEq

/-- `Source.match`: anchored match of a sticky pattern at `index`.  On success
the value is the matched substring and the new source's index advances by its
length; the receiver is left untouched. -/
def Source.matchRegexp (s : Source) (regexp : Regexp) : Option (ParseResult (List Char)) :=
  match regexp (s.string.drop s.index) with
  | some value => some ⟨value, ⟨s.string, s.index + value.length⟩⟩
  | none => none

/-- Outcome of running a TypeScript parser on a source: a successful
`ParseResult` (`ok value source`), the `null` result (`noMatch`), a thrown
exception carrying its message (`err`), or non-termination (`diverge`). -/
inductive POut (T : Type) where
  | ok : T → Source → POut T
  | noMatch : POut T
  | err : List Char → POut T
  | diverge : POut T
deriving DecidableEq

/-- The `Parser` class: a wrapper around the `parse` function. -/
structure Parser (T : Type) where
  parse : Source → POut T

/-- `Parser.regexp`: delegate to `Source.match`; `null` becomes `noMatch`. -/
def Parser.regexp (regexp : Regexp) : Parser (List Char) :=
  ⟨fun source =>
    match source.matchRegexp regexp with
    | some result => POut.ok result.value result.source
    | none => POut.noMatch⟩

/-- `Parser.constant`: always succeed with `value` without consuming input. -/
def Parser.constant (value : U) : Parser U := ⟨fun source => POut.ok value source⟩

/-- `Parser.error`: a parser that throws `Error(message)` when invoked. -/
def Parser.error (message : List Char) : Parser U := ⟨fun _ => POut.err message⟩

/-- `Parser.or`: prioritized choice.  Run the left parser; return its result
unless it produced `null`, in which case run the right parser at the same
source.  Thrown exceptions (and divergence) propagate. -/
def Parser.or (p : Parser T) (parser : Parser T) : Parser T :=
  ⟨fun source =>
    match p.parse source with
    | POut.ok value s => POut.ok value s
    | POut.noMatch => parser.parse source
    | POut.err m => POut.err m
    | POut.diverge => POut.diverge⟩

/-- Loop body of `Parser.zeroOrMore`: repeatedly apply the parser, pushing the
values, until it returns `null`.  The TypeScript `while` loop terminates only
if the parser eventually fails; the `fuel` argument bounds the number of loop
iterations we unfold, and running out of fuel denotes non-termination. -/
def Parser.zeroOrMoreAux (parser : Parser U) : Nat → Source → List U → POut (List U)
  | 0, _, _ => POut.diverge
  | fuel + 1, source, results =>
    match parser.parse source with
    | POut.ok value s => Parser.zeroOrMoreAux parser fuel s (results ++ [value])
    | POut.noMatch => POut.ok results source
    | POut.err m => POut.err m
    | POut.diverge => POut.diverge

/-- `Parser.zeroOrMore`: collect successive matches into an array.  Since each
successful step of every parser this grammar repeats strictly advances the
index and never moves past the end of the string, `remaining + 1` iterations
always suffice for a terminating loop; a zero-width-succeeding inner parser
exhausts the fuel, which models the real infinite loop. -/
def Parser.zeroOrMore (parser : Parser U) : Parser (List U) :=
  ⟨fun source => Parser.zeroOrMoreAux parser (source.string.length - source.index + 1) source []⟩

/-- `Parser.bind`: run the parser, then feed its value to `callback` and
continue from the position it left off at; `null` propagates. -/
def Parser.bind (p : Parser T) (callback : T → Parser U) : Parser U :=
  ⟨fun source =>
    match p.parse source with
    | POut.ok value s => (callback value).parse s
    | POut.noMatch => POut.noMatch
    | POut.err m => POut.err m
    | POut.diverge => POut.diverge⟩

/-- `Parser.and`: like `bind`, but ignore the first value. -/
def Parser.and (p : Parser T) (parser : Parser U) : Parser U :=
  p.bind fun _ => parser

/-- `Parser.map`: bind the value, then immediately return a constant parser of
the transformed value. -/
def Parser.map (p : Parser T) (callback : T → U) : Parser U :=
  p.bind fun value => Parser.constant (callback value)

/-- `Parser.maybe`: `parser.or(constant(null))`.  The TypeScript version works
on `Parser<U | null>`; the implicit widening of `U` into `U | null` is modelled
by `Option` with a `some`-injection. -/
def Parser.maybe (parser : Parser U) : Parser (Option U) :=
  (parser.map some).or (Parser.constant none)

/-- Result of `parseStringToCompletion`: the parsed value, a thrown `Error`
with its message, or non-termination. -/
inductive Completion (T : Type) where
  | ok : T → Completion T
  | thrown : List Char → Completion T
  | diverge : Completion T
deriving DecidableEq

/-- `Parser.parseStringToCompletion`: parse from index `0`; throw
`"Parse error: could not parse anything at all"` on a `null` result, and
`"Parse error at index <index>"` when the match stops before the end of the
input; otherwise return the parsed value. -/
def Parser.parseStringToCompletion (p : Parser T) (string : List Char) : Completion T :=
  match p.parse ⟨string, 0⟩ with
  | POut.noMatch => Completion.thrown ("Parse error: could not parse anything at all".toList)
  | POut.err m => Completion.thrown m
  | POut.diverge => Completion.diverge
  | POut.ok value source =>
    if source.index ≠ source.string.length then
      Completion.thrown ("Parse error at index ".toList ++ (Nat.repr source.index).toList)
    else
      Completion.ok value

/-- The closed AST variant family of the compiler (classes `Number` .. `While`).
Identifier-like fields are `List Char`; number literals are parsed decimal
naturals. -/
inductive AST where
  | Number : Nat → AST
  | Id : List Char → AST
  | Not : AST → AST
  | Equal : AST → AST → AST
  | NotEqual : AST → AST → AST
  | Add : AST → AST → AST
  | Subtract : AST → AST → AST
  | Multiply : AST → AST → AST
  | Divide : AST → AST → AST
  | Call : List Char → List AST → AST
  | Return : AST → AST
  | Block : List AST → AST
  | If : AST → AST → AST → AST
  | Function : List Char → List (List Char) → AST → AST
  | Var : List Char → AST → AST
  | Assign : List Char → AST → AST
  | While : AST → AST → AST

/-- Element-wise equality of string arrays: `length` check plus `every` with
`===`, as in `Function.equals` for the parameter lists. -/
def strListEquals (a b : List (List Char)) : Bool :=
  a.length == b.length && ((a.zip b).all fun q => q.1 == q.2)

mutual

/-- The `equals` methods of the AST classes: same variant (the `instanceof`
check) and recursively equal corresponding fields. -/
def AST.equals : AST → AST → Bool
  | AST.Number v₁, AST.Number v₂ => v₁ == v₂
  | AST.Id v₁, AST.Id v₂ => v₁ == v₂
  | AST.Not t₁, AST.Not t₂ => AST.equals t₁ t₂
  | AST.Equal l₁ r₁, AST.Equal l₂ r₂ => AST.equals l₁ l₂ && AST.equals r₁ r₂
  | AST.NotEqual l₁ r₁, AST.NotEqual l₂ r₂ => AST.equals l₁ l₂ && AST.equals r₁ r₂
  | AST.Add l₁ r₁, AST.Add l₂ r₂ => AST.equals l₁ l₂ && AST.equals r₁ r₂
  | AST.Subtract l₁ r₁, AST.Subtract l₂ r₂ => AST.equals l₁ l₂ && AST.equals r₁ r₂
  | AST.Multiply l₁ r₁, AST.Multiply l₂ r₂ => AST.equals l₁ l₂ && AST.equals r₁ r₂
  | AST.Divide l₁ r₁, AST.Divide l₂ r₂ => AST.equals l₁ l₂ && AST.equals r₁ r₂
  | AST.Call c₁ a₁, AST.Call c₂ a₂ => c₁ == c₂ && AST.equalsList a₁ a₂
  | AST.Return t₁, AST.Return t₂ => AST.equals t₁ t₂
  | AST.Block s₁, AST.Block s₂ => AST.equalsList s₁ s₂
  | AST.If c₁ t₁ e₁, AST.If c₂ t₂ e₂ =>
      AST.equals c₁ c₂ && AST.equals t₁ t₂ && AST.equals e₁ e₂
  | AST.Function n₁ p₁ b₁, AST.Function n₂ p₂ b₂ =>
      n₁ == n₂ && strListEquals p₁ p₂ && AST.equals b₁ b₂
  | AST.Var n₁ v₁, AST.Var n₂ v₂ => n₁ == n₂ && AST.equals v₁ v₂
  | AST.Assign n₁ v₁, AST.Assign n₂ v₂ => n₁ == n₂ && AST.equals v₁ v₂
  | AST.While c₁ b₁, AST.While c₂ b₂ => AST.equals c₁ c₂ && AST.equals b₁ b₂
  | _, _ => false

/-- Equality of AST arrays (`length` check plus element-wise `every`),
rendered as paired recursion. -/
def AST.equalsList : List AST → List AST → Bool
  | [], [] => true
  | x :: xs, y :: ys => AST.equals x y && AST.equalsList xs ys
  | _, _ => false

end

/-- The `whitespace` parser. -/
def whitespace : Parser (List Char) := Parser.regexp wsRegexp

/-- The `comments` parser: line comments or block comments. -/
def comments : Parser (List Char) :=
  (Parser.regexp lineCommentRegexp).or (Parser.regexp blockCommentRegexp)

/-- The `ignored` parser: any run of whitespace and comments. -/
def ignored : Parser (List (List Char)) := Parser.zeroOrMore (whitespace.or comments)

/-- The `token` helper: a pattern match followed by consuming and discarding
trailing ignored text. -/
def token (pattern : Regexp) : Parser (List Char) :=
  (Parser.regexp pattern).bind fun value => ignored.and (Parser.constant value)

/-- Keyword token `function`. -/
def FUNCTION : Parser (List Char) := token (kwRegexp "function".toList)

/-- Keyword token `if`. -/
def IF : Parser (List Char) := token (kwRegexp "if".toList)

/-- Keyword token `while`. -/
def WHILE : Parser (List Char) := token (kwRegexp "while".toList)

/-- Keyword token `else`. -/
def ELSE : Parser (List Char) := token (kwRegexp "else".toList)

/-- Keyword token `return`. -/
def RETURN : Parser (List Char) := token (kwRegexp "return".toList)

/-- Keyword token `var`. -/
def VAR : Parser (List Char) := token (kwRegexp "var".toList)

/-- Punctuation token `,`. -/
def COMMA : Parser (List Char) := token (litRegexp ",".toList)

/-- Punctuation token `;`. -/
def SEMICOLON : Parser (List Char) := token (litRegexp ";".toList)

/-- Punctuation token `(`. -/
def LEFT_PAREN : Parser (List Char) := token (litRegexp "(".toList)

/-- Punctuation token `)`. -/
def RIGHT_PAREN : Parser (List Char) := token (litRegexp ")".toList)

/-- Punctuation token for an opening curly brace. -/
def LEFT_BRACE : Parser (List Char) := token (litRegexp [Char.ofNat 123])

/-- Punctuation token for a closing curly brace. -/
def RIGHT_BRACE : Parser (List Char) := token (litRegexp [Char.ofNat 125])

/-- `parseInt(digits, 10)` on a string of decimal digits. -/
def parseIntDec (digits : List Char) : Nat :=
  digits.foldl (fun acc c => acc * 10 + (c.toNat - 48)) 0

/-- The `NUMBER` token: digits mapped to a `Number` AST node. -/
def NUMBER : Parser AST := (token numberRegexp).map fun digits => AST.Number (parseIntDec digits)

/-- The `ID` token: an identifier's text. -/
def ID : Parser (List Char) := token idRegexp

/-- The `id` parser: an identifier as an `Id` AST node (named `idNode` here
because `id` is taken by the identity function). -/
def idNode : Parser AST := ID.map fun x => AST.Id x

/-- Operator token `!`, producing the `Not` constructor. -/
def NOT : Parser (AST → AST) := (token (litRegexp "!".toList)).map fun _ => AST.Not

/-- Operator token `==`, producing the `Equal` constructor. -/
def EQUAL : Parser (AST → AST → AST) := (token (litRegexp "==".toList)).map fun _ => AST.Equal

/-- Operator token `!=`, producing the `NotEqual` constructor. -/
def NOT_EQUAL : Parser (AST → AST → AST) :=
  (token (litRegexp "!=".toList)).map fun _ => AST.NotEqual

/-- Operator token `+`, producing the `Add` constructor. -/
def PLUS : Parser (AST → AST → AST) := (token (litRegexp "+".toList)).map fun _ => AST.Add

/-- Operator token `-`, producing the `Subtract` constructor. -/
def MINUS : Parser (AST → AST → AST) := (token (litRegexp "-".toList)).map fun _ => AST.Subtract

/-- Operator token `*`, producing the `Multiply` constructor. -/
def STAR : Parser (AST → AST → AST) := (token (litRegexp "*".toList)).map fun _ => AST.Multiply

/-- Operator token `/`, producing the `Divide` constructor. -/
def SLASH : Parser (AST → AST → AST) := (token (litRegexp "/".toList)).map fun _ => AST.Divide

/-- Operator token `=`, producing the `Assign` constructor. -/
def ASSIGN : Parser (List Char → AST → AST) :=
  (token (litRegexp "=".toList)).map fun _ => AST.Assign

/-- The `args` rule, parameterized by the `expression` forward-reference cell:
`(expression (COMMA expression)*)?`. -/
def argsP (expression : Parser AST) : Parser (List AST) :=
  (expression.bind fun arg =>
    (Parser.zeroOrMore (COMMA.and expression)).bind fun args =>
      Parser.constant (arg :: args)).or (Parser.constant [])

/-- The `call` rule: `ID LEFT_PAREN args RIGHT_PAREN`. -/
def callP (expression : Parser AST) : Parser AST :=
  ID.bind fun callee =>
    LEFT_PAREN.and ((argsP expression).bind fun args =>
      RIGHT_PAREN.and (Parser.constant (AST.Call callee args)))

/-- The `atom` rule: `call / id / NUMBER / LEFT_PAREN expression RIGHT_PAREN`. -/
def atomP (expression : Parser AST) : Parser AST :=
  ((callP expression).or idNode).or NUMBER |>.or
    ((LEFT_PAREN.and expression).bind fun e => RIGHT_PAREN.and (Parser.constant e))

/-- The `unary` rule: `NOT? atom`. -/
def unaryP (expression : Parser AST) : Parser AST :=
  (Parser.maybe NOT).bind fun n =>
    (atomP expression).map fun term => if n.isSome then AST.Not term else term

/-- The generic left-associative builder (named `infix` in the source): a term,
then zero or more (operator, term) pairs folded onto it with `reduce`. -/
def binOp (operatorParser : Parser (AST → AST → AST)) (termParser : Parser AST) : Parser AST :=
  termParser.bind fun term =>
    (Parser.zeroOrMore (operatorParser.bind fun operator =>
      termParser.bind fun term => Parser.constant (operator, term))).map fun operatorTerms =>
        operatorTerms.foldl (fun left ot => ot.1 left ot.2) term

/-- The `product` rule: `unary ((STAR / SLASH) unary)*`. -/
def productP (expression : Parser AST) : Parser AST := binOp (STAR.or SLASH) (unaryP expression)

/-- The `sum` rule: `product ((PLUS / MINUS) product)*`. -/
def sumP (expression : Parser AST) : Parser AST := binOp (PLUS.or MINUS) (productP expression)

/-- The `comparison` rule: `sum ((EQUAL / NOT_EQUAL) sum)*`. -/
def comparisonP (expression : Parser AST) : Parser AST :=
  binOp (EQUAL.or NOT_EQUAL) (sumP expression)

/-- The wired `expression` cell.  After `expression.parse = comparison.parse`
the cell satisfies `expression = comparison(expression)`; `expressionF (n+1)`
unfolds this equation `n+1` times, and fuel `0` stands for unbounded unfolding
(non-termination). -/
def expressionF : Nat → Parser AST
  | 0 => ⟨fun _ => POut.diverge⟩
  | n + 1 => comparisonP (expressionF n)

/-- The `returnStatement` rule: `RETURN expression SEMICOLON`. -/
def returnStatementP (expression : Parser AST) : Parser AST :=
  (RETURN.and expression).bind fun term =>
    SEMICOLON.and (Parser.constant (AST.Return term))

/-- The `expressionStatement` rule: `expression SEMICOLON`. -/
def expressionStatementP (expression : Parser AST) : Parser AST :=
  expression.bind fun term => SEMICOLON.and (Parser.constant term)

/-- The `ifStatement` rule: `IF LEFT_PAREN expression RIGHT_PAREN statement
ELSE statement`. -/
def ifStatementP (expression statement : Parser AST) : Parser AST :=
  ((IF.and LEFT_PAREN).and expression).bind fun conditional =>
    (RIGHT_PAREN.and statement).bind fun consequence =>
      (ELSE.and statement).bind fun alternative =>
        Parser.constant (AST.If conditional consequence alternative)

/-- The `whileStatement` rule: `WHILE LEFT_PAREN expression RIGHT_PAREN
statement`. -/
def whileStatementP (expression statement : Parser AST) : Parser AST :=
  ((WHILE.and LEFT_PAREN).and expression).bind fun conditional =>
    (RIGHT_PAREN.and statement).bind fun body =>
      Parser.constant (AST.While conditional body)

/-- The `varStatement` rule: `VAR ID ASSIGN expression SEMICOLON`. -/
def varStatementP (expression : Parser AST) : Parser AST :=
  (VAR.and ID).bind fun name =>
    (ASSIGN.and expression).bind fun value =>
      SEMICOLON.and (Parser.constant (AST.Var name value))

/-- The `assignmentStatement` rule: `ID ASSIGN expression SEMICOLON`. -/
def assignmentStatementP (expression : Parser AST) : Parser AST :=
  ID.bind fun name =>
    (ASSIGN.and expression).bind fun value =>
      SEMICOLON.and (Parser.constant (AST.Assign name value))

/-- The `blockStatement` rule: `LEFT_BRACE statement* RIGHT_BRACE`. -/
def blockStatementP (statement : Parser AST) : Parser AST :=
  (LEFT_BRACE.and (Parser.zeroOrMore statement)).bind fun statements =>
    RIGHT_BRACE.and (Parser.constant (AST.Block statements))

/-- The `parameters` rule: `(ID (COMMA ID)*)?`. -/
def parametersP : Parser (List (List Char)) :=
  (ID.bind fun param =>
    (Parser.zeroOrMore (COMMA.and ID)).bind fun params =>
      Parser.constant (param :: params)).or (Parser.constant [])

/-- The `functionStatement` rule: `FUNCTION ID LEFT_PAREN parameters
RIGHT_PAREN blockStatement`. -/
def functionStatementP (statement : Parser AST) : Parser AST :=
  (FUNCTION.and ID).bind fun name =>
    (LEFT_PAREN.and parametersP).bind fun parameters =>
      (RIGHT_PAREN.and (blockStatementP statement)).bind fun block =>
        Parser.constant (AST.Function name parameters block)

/-- The `statementParser` alternative chain, in the source's order:
return / function / if / while / var / assignment / block / expression. -/
def statementParserP (expression statement : Parser AST) : Parser AST :=
  (returnStatementP expression).or (functionStatementP statement)
    |>.or (ifStatementP expression statement)
    |>.or (whileStatementP expression statement)
    |>.or (varStatementP expression)
    |>.or (assignmentStatementP expression)
    |>.or (blockStatementP statement)
    |>.or (expressionStatementP expression)

/-- The wired `statement` cell, by fuel-indexed unfolding like `expressionF`. -/
def statementF : Nat → Parser AST
  | 0 => ⟨fun _ => POut.diverge⟩
  | n + 1 => statementParserP (expressionF n) (statementF n)

/-- The top-level `parser`: leading trivia, then zero or more statements,
wrapped in a `Block`. -/
def parserF (n : Nat) : Parser AST :=
  (ignored.and (Parser.zeroOrMore (statementF n))).map fun statements => AST.Block statements

/-- Running the top-level parser to completion on a string.  Fuel
`length + 2` always suffices (each cell unfolding strictly consumes input
before recursing), as established by the totality theorem for claim C3. -/
def runParser (string : List Char) : Completion AST :=
  (parserF (string.length + 2)).parseStringToCompletion string

/-- The factorial example program of the integration test, verbatim. -/
def factorialSource : List Char :=
  ("\n    function factorial(n) \x7b\n      var result = 1;\n      while (n != 1) \x7b\n        result = result * n;\n        n = n - 1;\n      \x7d\n      return result;\n    \x7d\n  ").toList

/-- The AST the integration test expects for the factorial program. -/
def factorialAST : AST :=
  AST.Block [AST.Function "factorial".toList ["n".toList] (AST.Block [
    AST.Var "result".toList (AST.Number 1),
    AST.While (AST.NotEqual (AST.Id "n".toList) (AST.Number 1)) (AST.Block [
      AST.Assign "result".toList (AST.Multiply (AST.Id "result".toList) (AST.Id "n".toList)),
      AST.Assign "n".toList (AST.Subtract (AST.Id "n".toList) (AST.Number 1))]),
    AST.Return (AST.Id "result".toList)])]

/-! Verification infrastructure: invariants of parser outcomes. -/

/-- An anchored pattern only ever returns a prefix of the text it is applied
to (the precondition §4.1 places on every pattern handed to `Source.match`). -/
def RegexpAnchored (r : Regexp) : Prop := ∀ cs v, r cs = some v → v <+: cs

/-- A pattern that never matches the empty string. -/
def RegexpConsuming (r : Regexp) : Prop := ∀ cs v, r cs = some v → v ≠ []

/-- Invariant of the outcome of running a parser at `s`: it is a plain result
(no exception, no divergence), and on success the string is unchanged while
the index moves forward (strictly, when `strict` is `true`) and stays within
the string. -/
inductive GoodOut {T : Type} (s : Source) (strict : Bool) : POut T → Prop where
  | noMatch : GoodOut s strict POut.noMatch
  | ok (v : T) (s' : Source) : s'.string = s.string → s.index ≤ s'.index →
      (strict = true → s.index < s'.index) → s'.index ≤ s.string.length →
      GoodOut s strict (POut.ok v s')

/-- A parser whose outcome is good and strictly consuming at every in-bounds
source (all token-level parsers are). -/
def GoodTok {T : Type} (p : Parser T) : Prop :=
  ∀ s : Source, s.index ≤ s.string.length → GoodOut s true (p.parse s)

/-- A parser whose outcome is good (possibly without consuming) at every
in-bounds source. -/
def GoodLax {T : Type} (p : Parser T) : Prop :=
  ∀ s : Source, s.index ≤ s.string.length → GoodOut s false (p.parse s)

/-- Good and strictly consuming at every in-bounds source with fewer than `M`
characters remaining. -/
def GoodBelow {T : Type} (M : Nat) (p : Parser T) : Prop :=
  ∀ s : Source, s.index ≤ s.string.length → s.string.length - s.index < M →
    GoodOut s true (p.parse s)

/-- Good and strictly consuming at every in-bounds source with remaining
count + 1 below `M` (the invariant of the fueled `statement` cell, which is
only ever re-entered after at least one character has been consumed). -/
def GoodBelowNext {T : Type} (M : Nat) (p : Parser T) : Prop :=
  ∀ s : Source, s.index ≤ s.string.length → s.string.length - s.index + 1 < M →
    GoodOut s true (p.parse s)

/-- Good and strictly consuming at every in-bounds source with at most `M`
characters remaining. -/
def GoodUpTo {T : Type} (M : Nat) (p : Parser T) : Prop :=
  ∀ s : Source, s.index ≤ s.string.length → s.string.length - s.index ≤ M →
    GoodOut s true (p.parse s)

/-! Basic properties of outcomes and of the primitive combinators. -/

/-- A strictly consuming good outcome is good at any strictness. -/
theorem GoodOut.weaken {T : Type} {s : Source} {b : Bool} {o : POut T}
    (h : GoodOut s true o) : GoodOut s b o := by
  cases h with
  | noMatch => exact .noMatch
  | ok v s' hstr hle hlt hb => exact .ok v s' hstr hle (fun _ => hlt rfl) hb

/-- Any good outcome is good at strictness `false`. -/
theorem GoodOut.lax {T : Type} {s : Source} {b : Bool} {o : POut T}
    (h : GoodOut s b o) : GoodOut s false o := by
  cases h with
  | noMatch => exact .noMatch
  | ok v s' hstr hle hlt hb => exact .ok v s' hstr hle (fun hc => Bool.noConfusion hc) hb

/-- Unpack the invariants of a successful good outcome. -/
theorem GoodOut.ok_inv {T : Type} {s : Source} {b : Bool} {o : POut T} {v : T} {s' : Source}
    (h : GoodOut s b o) (he : o = POut.ok v s') :
    s'.string = s.string ∧ s.index ≤ s'.index ∧ (b = true → s.index < s'.index) ∧
      s'.index ≤ s.string.length := by
  cases h with
  | noMatch => cases he
  | ok w t hstr hle hlt hb => cases he; exact ⟨hstr, hle, hlt, hb⟩

/-- A `Parser.regexp` over an anchored, non-empty-matching pattern is good and
strictly consuming everywhere. -/
theorem regexp_good {r : Regexp} (hA : RegexpAnchored r) (hC : RegexpConsuming r)
    (s : Source) : GoodOut s true ((Parser.regexp r).parse s) := by
  simp only [Parser.regexp, Source.matchRegexp]
  cases hr : r (s.string.drop s.index) with
  | none => exact .noMatch
  | some v =>
    have hpre := hA _ _ hr
    have hne := hC _ _ hr
    have hlen : v.length ≤ s.string.length - s.index := by
      have h := hpre.length_le
      simpa using h
    have hpos : 0 < v.length := List.length_pos.mpr hne
    refine .ok v ⟨s.string, s.index + v.length⟩ rfl (Nat.le_add_right _ _) (fun _ => ?_) ?_
    · show s.index < s.index + v.length
      omega
    · show s.index + v.length ≤ s.string.length
      omega

/-- `Parser.constant` is good (without consuming) at every in-bounds source. -/
theorem constant_good {U : Type} (value : U) (s : Source) (hs : s.index ≤ s.string.length) :
    GoodOut s false ((Parser.constant value).parse s) :=
  .ok value s rfl (Nat.le_refl _) (fun hc => Bool.noConfusion hc) hs

/-- `Parser.or` preserves goodness. -/
theorem or_good {T : Type} {p q : Parser T} {s : Source} {b : Bool}
    (hp : GoodOut s b (p.parse s)) (hq : GoodOut s b (q.parse s)) :
    GoodOut s b ((p.or q).parse s) := by
  simp only [Parser.or]
  cases hps : p.parse s with
  | ok v s' => rw [hps] at hp; exact hp
  | noMatch => exact hq
  | err m => rw [hps] at hp; cases hp
  | diverge => rw [hps] at hp; cases hp

/-- `Parser.bind` composes goodness; the composite consumes strictly if either
part does. -/
theorem bind_good {T U : Type} {p : Parser T} {f : T → Parser U} {s : Source} {b c : Bool}
    (hp : GoodOut s b (p.parse s))
    (hf : ∀ v s', p.parse s = POut.ok v s' → GoodOut s' c ((f v).parse s')) :
    GoodOut s (b || c) ((p.bind f).parse s) := by
  simp only [Parser.bind]
  cases hps : p.parse s with
  | noMatch => exact .noMatch
  | err m => rw [hps] at hp; cases hp
  | diverge => rw [hps] at hp; cases hp
  | ok v s' =>
    obtain ⟨hstr1, hle1, hlt1, hbd1⟩ := hp.ok_inv hps
    have h2 := hf v s' hps
    show GoodOut s (b || c) ((f v).parse s')
    cases hfs : (f v).parse s' with
    | noMatch => exact .noMatch
    | err m => rw [hfs] at h2; cases h2
    | diverge => rw [hfs] at h2; cases h2
    | ok u s'' =>
      obtain ⟨hstr, hle, hlt, hb⟩ := h2.ok_inv hfs
      refine .ok u s'' (hstr.trans hstr1) (le_trans hle1 hle) ?_ ?_
      · intro hor
        simp only [Bool.or_eq_true] at hor
        rcases hor with hb1 | hb2
        · exact lt_of_lt_of_le (hlt1 hb1) hle
        · exact lt_of_le_of_lt hle1 (hlt hb2)
      · rw [← hstr1]; exact hb

/-- Goodness for `Parser.and`, via `bind`. -/
theorem and_good {T U : Type} {p : Parser T} {q : Parser U} {s : Source} {b c : Bool}
    (hp : GoodOut s b (p.parse s))
    (hq : ∀ v s', p.parse s = POut.ok v s' → GoodOut s' c (q.parse s')) :
    GoodOut s (b || c) ((p.and q).parse s) :=
  bind_good hp hq

/-- `Parser.map` preserves goodness. -/
theorem map_good {T U : Type} {p : Parser T} {f : T → U} {s : Source} {b : Bool}
    (hp : GoodOut s b (p.parse s)) : GoodOut s b ((p.map f).parse s) := by
  have h := bind_good (f := fun v => Parser.constant (f v)) (c := false) hp
    (fun v s' hv => by
      have h1 := hp.ok_inv hv
      exact constant_good (f v) s' (by rw [h1.1]; exact h1.2.2.2))
  simpa using h

/-- `Parser.maybe` is good (possibly not consuming) whenever its argument is
good. -/
theorem maybe_good {U : Type} {p : Parser U} {s : Source} {b : Bool}
    (hs : s.index ≤ s.string.length) (hp : GoodOut s b (p.parse s)) :
    GoodOut s false ((Parser.maybe p).parse s) :=
  or_good (map_good hp).lax (constant_good _ _ hs)

/-! Anchoredness and non-emptiness of each pattern used by the lexical layer. -/

/-- Literal patterns are anchored. -/
theorem litRegexp_anchored (lit : List Char) : RegexpAnchored (litRegexp lit) := by
  intro cs v h
  simp only [litRegexp] at h
  split at h
  next hpre => cases h; exact List.isPrefixOf_iff_prefix.mp hpre
  next => cases h

/-- Non-empty literal patterns never match the empty string. -/
theorem litRegexp_consuming (lit : List Char) (hne : lit ≠ []) :
    RegexpConsuming (litRegexp lit) := by
  intro cs v h
  simp only [litRegexp] at h
  split at h
  next => cases h; exact hne
  next => cases h

/-- Keyword patterns are anchored. -/
theorem kwRegexp_anchored (word : List Char) : RegexpAnchored (kwRegexp word) := by
  intro cs v h
  simp only [kwRegexp] at h
  split at h
  next hc =>
    cases h
    simp only [Bool.and_eq_true] at hc
    exact List.isPrefixOf_iff_prefix.mp hc.1
  next => cases h

/-- Non-empty keyword patterns never match the empty string. -/
theorem kwRegexp_consuming (word : List Char) (hne : word ≠ []) :
    RegexpConsuming (kwRegexp word) := by
  intro cs v h
  simp only [kwRegexp] at h
  split at h
  next => cases h; exact hne
  next => cases h

/-- The whitespace pattern is anchored. -/
theorem wsRegexp_anchored : RegexpAnchored wsRegexp := by
  intro cs v h
  simp only [wsRegexp] at h
  cases ht : cs.takeWhile isWsChar with
  | nil => rw [ht] at h; cases h
  | cons c t => rw [ht] at h; cases h; rw [← ht]; exact List.takeWhile_prefix _

/-- The whitespace pattern matches at least one character. -/
theorem wsRegexp_consuming : RegexpConsuming wsRegexp := by
  intro cs v h
  simp only [wsRegexp] at h
  cases ht : cs.takeWhile isWsChar with
  | nil => rw [ht] at h; cases h
  | cons c t => rw [ht] at h; cases h; exact List.cons_ne_nil _ _

/-- The line-comment pattern is anchored. -/
theorem lineCommentRegexp_anchored : RegexpAnchored lineCommentRegexp := by
  intro cs v h
  simp only [lineCommentRegexp] at h
  split at h
  next rest =>
    cases h
    exact List.cons_prefix_cons.mpr ⟨rfl, List.cons_prefix_cons.mpr ⟨rfl, List.takeWhile_prefix _⟩⟩
  next => cases h

/-- The line-comment pattern matches at least the two slashes. -/
theorem lineCommentRegexp_consuming : RegexpConsuming lineCommentRegexp := by
  intro cs v h
  simp only [lineCommentRegexp] at h
  split at h
  next rest => cases h; exact List.cons_ne_nil _ _
  next => cases h

/-- The block-comment pattern is anchored. -/
theorem blockCommentRegexp_anchored : RegexpAnchored blockCommentRegexp := by
  intro cs v h
  simp only [blockCommentRegexp] at h
  split at h
  next rest =>
    split at h
    next m hm => cases h; exact List.take_prefix _ _
    next => cases h
  next => cases h

/-- The block-comment pattern matches at least the opening delimiter. -/
theorem blockCommentRegexp_consuming : RegexpConsuming blockCommentRegexp := by
  intro cs v h
  simp only [blockCommentRegexp] at h
  split at h
  next rest =>
    split at h
    next m hm =>
      cases h
      intro hnil
      rw [List.take_eq_nil_iff] at hnil
      rcases hnil with h0 | h0
      · omega
      · cases h0
    next => cases h
  next => cases h

/-- The number pattern is anchored. -/
theorem numberRegexp_anchored : RegexpAnchored numberRegexp := by
  intro cs v h
  simp only [numberRegexp] at h
  cases ht : cs.takeWhile isDigitChar with
  | nil => rw [ht] at h; cases h
  | cons c t => rw [ht] at h; cases h; rw [← ht]; exact List.takeWhile_prefix _

/-- The number pattern matches at least one digit. -/
theorem numberRegexp_consuming : RegexpConsuming numberRegexp := by
  intro cs v h
  simp only [numberRegexp] at h
  cases ht : cs.takeWhile isDigitChar with
  | nil => rw [ht] at h; cases h
  | cons c t => rw [ht] at h; cases h; exact List.cons_ne_nil _ _

/-- The identifier pattern is anchored. -/
theorem idRegexp_anchored : RegexpAnchored idRegexp := by
  intro cs v h
  simp only [idRegexp] at h
  split at h
  next c rest =>
    split at h
    · cases h; exact List.cons_prefix_cons.mpr ⟨rfl, List.takeWhile_prefix _⟩
    · cases h
  next => cases h

/-- The identifier pattern matches at least its start character. -/
theorem idRegexp_consuming : RegexpConsuming idRegexp := by
  intro cs v h
  simp only [idRegexp] at h
  split at h
  next c rest =>
    split at h
    · cases h; exact List.cons_ne_nil _ _
    · cases h
  next => cases h

/-! Properties of the `zeroOrMore` loop. -/

/-- The accumulator of the `zeroOrMore` loop is simply prepended to the
collected values. -/
theorem zeroOrMoreAux_acc {U : Type} (p : Parser U) :
    ∀ (fuel : Nat) (s : Source) (acc : List U),
      Parser.zeroOrMoreAux p fuel s acc =
        match Parser.zeroOrMoreAux p fuel s [] with
        | POut.ok l s' => POut.ok (acc ++ l) s'
        | POut.noMatch => POut.noMatch
        | POut.err m => POut.err m
        | POut.diverge => POut.diverge := by
  intro fuel
  induction fuel with
  | zero => intro s acc; rfl
  | succ n ih =>
    intro s acc
    cases hps : p.parse s with
    | ok v s₁ =>
      simp only [Parser.zeroOrMoreAux, hps]
      rw [ih s₁ (acc ++ [v]), ih s₁ ([] ++ [v])]
      cases Parser.zeroOrMoreAux p n s₁ [] with
      | ok l s' => simp
      | noMatch => rfl
      | err m => rfl
      | diverge => rfl
    | noMatch => simp [Parser.zeroOrMoreAux, hps]
    | err m => simp [Parser.zeroOrMoreAux, hps]
    | diverge => simp [Parser.zeroOrMoreAux, hps]

/-- With fuel exceeding the remaining character count, the loop over a good,
strictly consuming parser always terminates with a success within bounds. -/
theorem zeroOrMoreAux_ok {U : Type} (p : Parser U) :
    ∀ (fuel : Nat) (s : Source),
      s.index ≤ s.string.length →
      (∀ s', s'.string = s.string → s.index ≤ s'.index → s'.index ≤ s'.string.length →
        GoodOut s' true (p.parse s')) →
      s.string.length - s.index < fuel →
      ∃ l s', Parser.zeroOrMoreAux p fuel s [] = POut.ok l s' ∧
        s'.string = s.string ∧ s.index ≤ s'.index ∧ s'.index ≤ s.string.length := by
  intro fuel
  induction fuel with
  | zero => intro s hs hp hf; exact absurd hf (Nat.not_lt_zero _)
  | succ n ih =>
    intro s hs hp hf
    have hgood := hp s rfl (Nat.le_refl _) hs
    cases hps : p.parse s with
    | noMatch =>
      simp only [Parser.zeroOrMoreAux, hps]
      exact ⟨[], s, rfl, rfl, Nat.le_refl _, hs⟩
    | err m => rw [hps] at hgood; cases hgood
    | diverge => rw [hps] at hgood; cases hgood
    | ok v s₁ =>
      simp only [Parser.zeroOrMoreAux, hps]
      obtain ⟨hstr, hle, hlt, hbd⟩ := hgood.ok_inv hps
      have hlt' := hlt rfl
      have hs₁ : s₁.index ≤ s₁.string.length := by rw [hstr]; exact hbd
      have hp' : ∀ s', s'.string = s₁.string → s₁.index ≤ s'.index →
          s'.index ≤ s'.string.length → GoodOut s' true (p.parse s') := by
        intro t h1 h2 h3
        exact hp t (by rw [h1, hstr]) (le_trans hle h2) h3
      have hf' : s₁.string.length - s₁.index < n := by
        rw [hstr]; omega
      obtain ⟨l, s', heq, hstr', hle', hbd'⟩ := ih s₁ hs₁ hp' hf'
      rw [zeroOrMoreAux_acc p n s₁ ([] ++ [v]), heq]
      refine ⟨([] ++ [v]) ++ l, s', rfl, hstr'.trans hstr, ?_, ?_⟩
      · exact le_trans hle hle'
      · rw [← hstr]; exact hbd'

/-- `zeroOrMore` over a good, strictly consuming parser succeeds and stays
within bounds. -/
theorem zeroOrMore_ok {U : Type} (p : Parser U) (s : Source)
    (hs : s.index ≤ s.string.length)
    (hp : ∀ s', s'.string = s.string → s.index ≤ s'.index → s'.index ≤ s'.string.length →
      GoodOut s' true (p.parse s')) :
    ∃ l s', (Parser.zeroOrMore p).parse s = POut.ok l s' ∧
      s'.string = s.string ∧ s.index ≤ s'.index ∧ s'.index ≤ s.string.length :=
  zeroOrMoreAux_ok p (s.string.length - s.index + 1) s hs hp (by omega)

/-- `zeroOrMore` over a good, strictly consuming parser is good (possibly
consuming nothing). -/
theorem zeroOrMore_good {U : Type} (p : Parser U) (s : Source)
    (hs : s.index ≤ s.string.length)
    (hp : ∀ s', s'.string = s.string → s.index ≤ s'.index → s'.index ≤ s'.string.length →
      GoodOut s' true (p.parse s')) :
    GoodOut s false ((Parser.zeroOrMore p).parse s) := by
  obtain ⟨l, s', heq, hstr, hle, hbd⟩ := zeroOrMore_ok p s hs hp
  rw [heq]
  exact .ok l s' hstr hle (fun hc => Bool.noConfusion hc) hbd

/-- The result of the loop does not depend on the fuel, as long as the fuel
exceeds the remaining character count. -/
theorem zeroOrMoreAux_fuel {U : Type} (p : Parser U) :
    ∀ (f₁ f₂ : Nat) (s : Source),
      s.index ≤ s.string.length →
      (∀ s', s'.string = s.string → s.index ≤ s'.index → s'.index ≤ s'.string.length →
        GoodOut s' true (p.parse s')) →
      s.string.length - s.index < f₁ → s.string.length - s.index < f₂ →
      Parser.zeroOrMoreAux p f₁ s [] = Parser.zeroOrMoreAux p f₂ s [] := by
  intro f₁
  induction f₁ with
  | zero => intro f₂ s hs hp h1 h2; exact absurd h1 (Nat.not_lt_zero _)
  | succ n ih =>
    intro f₂ s hs hp h1 h2
    cases f₂ with
    | zero => exact absurd h2 (Nat.not_lt_zero _)
    | succ m =>
      cases hps : p.parse s with
      | noMatch => simp [Parser.zeroOrMoreAux, hps]
      | err msg => simp [Parser.zeroOrMoreAux, hps]
      | diverge => simp [Parser.zeroOrMoreAux, hps]
      | ok v s₁ =>
        simp only [Parser.zeroOrMoreAux, hps]
        obtain ⟨hstr, hle, hlt, hbd⟩ := (hp s rfl (Nat.le_refl _) hs).ok_inv hps
        have hlt' := hlt rfl
        have hs₁ : s₁.index ≤ s₁.string.length := by rw [hstr]; exact hbd
        have hp' : ∀ s', s'.string = s₁.string → s₁.index ≤ s'.index →
            s'.index ≤ s'.string.length → GoodOut s' true (p.parse s') := by
          intro t ha hb hc
          exact hp t (by rw [ha, hstr]) (le_trans hle hb) hc
        have hrec := ih m s₁ hs₁ hp' (by rw [hstr]; omega) (by rw [hstr]; omega)
        rw [zeroOrMoreAux_acc p n s₁ ([] ++ [v]), zeroOrMoreAux_acc p m s₁ ([] ++ [v]), hrec]

/-- Unfolding `zeroOrMore` once after an immediate failure. -/
theorem zeroOrMore_nil {U : Type} (p : Parser U) (s : Source)
    (h : p.parse s = POut.noMatch) :
    (Parser.zeroOrMore p).parse s = POut.ok [] s := by
  show Parser.zeroOrMoreAux p (s.string.length - s.index + 1) s [] = POut.ok [] s
  simp only [Parser.zeroOrMoreAux, h]

/-- Unfolding `zeroOrMore` once after a successful first match: the remaining
matches are collected by `zeroOrMore` from the new position, and the first
value is consed on. -/
theorem zeroOrMore_step {U : Type} (p : Parser U) (s : Source)
    (hs : s.index ≤ s.string.length)
    (hp : ∀ s', s'.string = s.string → s.index ≤ s'.index → s'.index ≤ s'.string.length →
      GoodOut s' true (p.parse s'))
    (v : U) (s₁ : Source) (h : p.parse s = POut.ok v s₁) :
    ∃ l s', (Parser.zeroOrMore p).parse s₁ = POut.ok l s' ∧
      (Parser.zeroOrMore p).parse s = POut.ok (v :: l) s' := by
  obtain ⟨hstr, hle, hlt, hbd⟩ := (hp s rfl (Nat.le_refl _) hs).ok_inv h
  have hlt' := hlt rfl
  have hs₁ : s₁.index ≤ s₁.string.length := by rw [hstr]; exact hbd
  have hp₁ : ∀ s', s'.string = s₁.string → s₁.index ≤ s'.index →
      s'.index ≤ s'.string.length → GoodOut s' true (p.parse s') := by
    intro t ha hb hc
    exact hp t (by rw [ha, hstr]) (le_trans hle hb) hc
  obtain ⟨l, s', heq, hstr', hle', hbd'⟩ := zeroOrMore_ok p s₁ hs₁ hp₁
  refine ⟨l, s', heq, ?_⟩
  show Parser.zeroOrMoreAux p (s.string.length - s.index + 1) s [] = POut.ok (v :: l) s'
  simp only [Parser.zeroOrMoreAux, h]
  rw [zeroOrMoreAux_acc p (s.string.length - s.index) s₁ ([] ++ [v])]
  have hfuel : Parser.zeroOrMoreAux p (s.string.length - s.index) s₁ [] =
      Parser.zeroOrMoreAux p (s₁.string.length - s₁.index + 1) s₁ [] := by
    apply zeroOrMoreAux_fuel p _ _ s₁ hs₁ hp₁ <;> rw [hstr] <;> omega
  rw [hfuel]
  have heq' : Parser.zeroOrMoreAux p (s₁.string.length - s₁.index + 1) s₁ [] =
      POut.ok l s' := heq
  rw [heq']
  simp

/-! Goodness of the lexical layer. -/

/-- Trivia (whitespace or a comment) is good and strictly consuming. -/
theorem trivia_good : GoodTok (whitespace.or comments) := fun s _ =>
  or_good (regexp_good wsRegexp_anchored wsRegexp_consuming s)
    (or_good (regexp_good lineCommentRegexp_anchored lineCommentRegexp_consuming s)
      (regexp_good blockCommentRegexp_anchored blockCommentRegexp_consuming s))

/-- The `ignored` parser is good (it can match the empty run). -/
theorem ignored_good : GoodLax ignored := fun s hs =>
  zeroOrMore_good _ s hs (fun s' _ _ h3 => trivia_good s' h3)

/-- `bind` goodness with the success invariants of the first parser made
available to the continuation's proof. -/
theorem bind_goodI {T U : Type} {p : Parser T} {f : T → Parser U} {s : Source} {b c : Bool}
    (hp : GoodOut s b (p.parse s))
    (hf : ∀ v s', p.parse s = POut.ok v s' → s'.string = s.string → s.index ≤ s'.index →
      (b = true → s.index < s'.index) → s'.index ≤ s.string.length →
      GoodOut s' c ((f v).parse s')) :
    GoodOut s (b || c) ((p.bind f).parse s) :=
  bind_good hp (fun v s' hv => by
    obtain ⟨h1, h2, h3, h4⟩ := hp.ok_inv hv
    exact hf v s' hv h1 h2 h3 h4)

/-- `and` goodness with the success invariants of the first parser made
available. -/
theorem and_goodI {T U : Type} {p : Parser T} {q : Parser U} {s : Source} {b c : Bool}
    (hp : GoodOut s b (p.parse s))
    (hq : ∀ s', s'.string = s.string → s.index ≤ s'.index →
      (b = true → s.index < s'.index) → s'.index ≤ s.string.length →
      GoodOut s' c (q.parse s')) :
    GoodOut s (b || c) ((p.and q).parse s) :=
  bind_goodI hp (fun _ s' _ h1 h2 h3 h4 => hq s' h1 h2 h3 h4)

/-- A parser good below `M` is good at any position strictly beyond an
in-bounds position with at most `M` remaining characters. -/
theorem GoodBelow.later {T : Type} {M : Nat} {p : Parser T} (H : GoodBelow M p)
    {s s' : Source} (hr : s.string.length - s.index ≤ M)
    (hstr : s'.string = s.string) (hlt : s.index < s'.index)
    (hbd : s'.index ≤ s.string.length) : GoodOut s' true (p.parse s') := by
  apply H s' (by rw [hstr]; exact hbd)
  rw [hstr]
  omega

/-- A `statement`-cell-style parser (good whenever remaining + 1 is below `M`)
is good at any position strictly beyond a position with fewer than `M`
remaining characters. -/
theorem GoodBelowNext.laterNext {T : Type} {M : Nat} {p : Parser T} (H : GoodBelowNext M p)
    {s s' : Source} (hr : s.string.length - s.index < M)
    (hstr : s'.string = s.string) (hlt : s.index < s'.index)
    (hbd : s'.index ≤ s.string.length) : GoodOut s' true (p.parse s') := by
  apply H s' (by rw [hstr]; exact hbd)
  rw [hstr]
  omega

/-- A `token` over an anchored, consuming pattern is good and strictly
consuming. -/
theorem token_good {r : Regexp} (hA : RegexpAnchored r) (hC : RegexpConsuming r) :
    GoodTok (token r) := by
  intro s hs
  have h := bind_goodI (c := false) (regexp_good hA hC s)
    (fun v s' _ hstr _ _ hbd => by
      have hs' : s'.index ≤ s'.string.length := by rw [hstr]; exact hbd
      have h2 := and_goodI (c := false) (ignored_good s' hs')
        (fun s'' h1 h2 _ h4 =>
          constant_good v s'' (by rw [h1]; exact h4))
      simpa using h2)
  simpa using h

/-- Goodness of a literal token. -/
theorem tokenLit_good (lit : List Char) (hne : lit ≠ []) : GoodTok (token (litRegexp lit)) :=
  token_good (litRegexp_anchored lit) (litRegexp_consuming lit hne)

/-- Goodness of a keyword token. -/
theorem tokenKw_good (word : List Char) (hne : word ≠ []) : GoodTok (token (kwRegexp word)) :=
  token_good (kwRegexp_anchored word) (kwRegexp_consuming word hne)

/-- A mapped good token parser is a good token parser. -/
theorem GoodTok.map {T U : Type} {p : Parser T} (h : GoodTok p) (f : T → U) :
    GoodTok (p.map f) := fun s hs => map_good (h s hs)

/-- The choice of two good token parsers is a good token parser. -/
theorem GoodTok.orTok {T : Type} {p q : Parser T} (hp : GoodTok p) (hq : GoodTok q) :
    GoodTok (p.or q) := fun s hs => or_good (hp s hs) (hq s hs)

/-- Goodness of every keyword token of the grammar. -/
theorem FUNCTION_good : GoodTok FUNCTION := tokenKw_good _ (by decide)

/-- Goodness of the `if` keyword token. -/
theorem IF_good : GoodTok IF := tokenKw_good _ (by decide)

/-- Goodness of the `while` keyword token. -/
theorem WHILE_good : GoodTok WHILE := tokenKw_good _ (by decide)

/-- Goodness of the `else` keyword token. -/
theorem ELSE_good : GoodTok ELSE := tokenKw_good _ (by decide)

/-- Goodness of the `return` keyword token. -/
theorem RETURN_good : GoodTok RETURN := tokenKw_good _ (by decide)

/-- Goodness of the `var` keyword token. -/
theorem VAR_good : GoodTok VAR := tokenKw_good _ (by decide)

/-- Goodness of the comma token. -/
theorem COMMA_good : GoodTok COMMA := tokenLit_good _ (by decide)

/-- Goodness of the semicolon token. -/
theorem SEMICOLON_good : GoodTok SEMICOLON := tokenLit_good _ (by decide)

/-- Goodness of the opening-parenthesis token. -/
theorem LEFT_PAREN_good : GoodTok LEFT_PAREN := tokenLit_good _ (by decide)

/-- Goodness of the closing-parenthesis token. -/
theorem RIGHT_PAREN_good : GoodTok RIGHT_PAREN := tokenLit_good _ (by decide)

/-- Goodness of the opening-brace token. -/
theorem LEFT_BRACE_good : GoodTok LEFT_BRACE := tokenLit_good _ (by decide)

/-- Goodness of the closing-brace token. -/
theorem RIGHT_BRACE_good : GoodTok RIGHT_BRACE := tokenLit_good _ (by decide)

/-- Goodness of the number token. -/
theorem NUMBER_good : GoodTok NUMBER :=
  (token_good numberRegexp_anchored numberRegexp_consuming).map _

/-- Goodness of the identifier token. -/
theorem ID_good : GoodTok ID := token_good idRegexp_anchored idRegexp_consuming

/-- Goodness of the identifier-node parser. -/
theorem idNode_good : GoodTok idNode := ID_good.map _

/-- Goodness of the `!` operator token. -/
theorem NOT_good : GoodTok NOT := (tokenLit_good "!".toList (by decide)).map _

/-- Goodness of the `==` operator token. -/
theorem EQUAL_good : GoodTok EQUAL := (tokenLit_good "==".toList (by decide)).map _

/-- Goodness of the `!=` operator token. -/
theorem NOT_EQUAL_good : GoodTok NOT_EQUAL := (tokenLit_good "!=".toList (by decide)).map _

/-- Goodness of the `+` operator token. -/
theorem PLUS_good : GoodTok PLUS := (tokenLit_good "+".toList (by decide)).map _

/-- Goodness of the `-` operator token. -/
theorem MINUS_good : GoodTok MINUS := (tokenLit_good "-".toList (by decide)).map _

/-- Goodness of the `*` operator token. -/
theorem STAR_good : GoodTok STAR := (tokenLit_good "*".toList (by decide)).map _

/-- Goodness of the `/` operator token. -/
theorem SLASH_good : GoodTok SLASH := (tokenLit_good "/".toList (by decide)).map _

/-- Goodness of the `=` operator token. -/
theorem ASSIGN_good : GoodTok ASSIGN := (tokenLit_good "=".toList (by decide)).map _

/-! Goodness of the expression grammar, relative to the `expression` cell. -/

/-- Goodness of `COMMA expression` given a good cell. -/
theorem comma_expr_good {e : Parser AST} {M : Nat} (He : GoodBelow M e)
    (s : Source) (hs : s.index ≤ s.string.length) (hr : s.string.length - s.index ≤ M) :
    GoodOut s true ((COMMA.and e).parse s) := by
  have h := and_goodI (c := true) (COMMA_good s hs)
    (fun s₁ hstr hle hlt hbd => He.later hr hstr (hlt rfl) hbd)
  simpa using h

/-- Goodness of the `args` rule given a good cell; `args` can match nothing. -/
theorem args_good {e : Parser AST} {M : Nat} (He : GoodBelow M e)
    (s : Source) (hs : s.index ≤ s.string.length) (hr : s.string.length - s.index < M) :
    GoodOut s false ((argsP e).parse s) := by
  refine or_good ?_ (constant_good [] s hs)
  have h := bind_goodI (c := false) (He s hs hr)
    (fun arg s₁ h1 hstr hle hlt hbd => by
      have hs₁ : s₁.index ≤ s₁.string.length := by rw [hstr]; exact hbd
      have h2 := bind_goodI (b := false) (c := false)
        (zeroOrMore_good _ s₁ hs₁ (fun s₂ hstr₂ hle₂ hbd₂ => by
          refine comma_expr_good He s₂ hbd₂ ?_
          rw [hstr₂, hstr]
          omega))
        (fun args s₂ h2 hstr₂ hle₂ hlt₂ hbd₂ =>
          constant_good (arg :: args) s₂ (by rw [hstr₂]; exact hbd₂))
      simpa using h2)
  exact h.lax

/-- Goodness of the `call` rule given a good cell. -/
theorem call_good {e : Parser AST} {M : Nat} (He : GoodBelow M e)
    (s : Source) (hs : s.index ≤ s.string.length) (hr : s.string.length - s.index ≤ M) :
    GoodOut s true ((callP e).parse s) := by
  have h := bind_goodI (c := true) (ID_good s hs)
    (fun callee s₁ h1 hstr hle hlt hbd => by
      have hs₁ : s₁.index ≤ s₁.string.length := by rw [hstr]; exact hbd
      have h2 := and_goodI (c := true) (LEFT_PAREN_good s₁ hs₁)
        (fun s₂ hstr₂ hle₂ hlt₂ hbd₂ => by
          have hs₂ : s₂.index ≤ s₂.string.length := by rw [hstr₂]; exact hbd₂
          have hr₂ : s₂.string.length - s₂.index < M := by
            rw [hstr₂, hstr]
            have := hlt rfl
            have := hlt₂ rfl
            omega
          have h3 := bind_goodI (b := false) (c := true)
            (args_good He s₂ hs₂ hr₂)
            (fun args s₃ h3 hstr₃ hle₃ hlt₃ hbd₃ => by
              have hs₃ : s₃.index ≤ s₃.string.length := by rw [hstr₃]; exact hbd₃
              have h4 := and_goodI (c := false) (RIGHT_PAREN_good s₃ hs₃)
                (fun s₄ hstr₄ hle₄ hlt₄ hbd₄ =>
                  constant_good (AST.Call callee args) s₄ (by rw [hstr₄]; exact hbd₄))
              simpa using h4)
          simpa using h3)
      simpa using h2)
  simpa using h

/-- Goodness of the `atom` rule given a good cell. -/
theorem atom_good {e : Parser AST} {M : Nat} (He : GoodBelow M e)
    (s : Source) (hs : s.index ≤ s.string.length) (hr : s.string.length - s.index ≤ M) :
    GoodOut s true ((atomP e).parse s) := by
  refine or_good (or_good (or_good (call_good He s hs hr) (idNode_good s hs))
    (NUMBER_good s hs)) ?_
  have h := bind_goodI (c := true)
    (and_goodI (c := true) (LEFT_PAREN_good s hs)
      (fun s₁ hstr hle hlt hbd => He.later hr hstr (hlt rfl) hbd))
    (fun v s₁ h1 hstr hle hlt hbd => by
      have hs₁ : s₁.index ≤ s₁.string.length := by rw [hstr]; exact hbd
      have h2 := and_goodI (c := false) (RIGHT_PAREN_good s₁ hs₁)
        (fun s₂ hstr₂ hle₂ hlt₂ hbd₂ =>
          constant_good v s₂ (by rw [hstr₂]; exact hbd₂))
      simpa using h2)
  simpa using h

/-- Goodness of the `unary` rule given a good cell. -/
theorem unary_good {e : Parser AST} {M : Nat} (He : GoodBelow M e)
    (s : Source) (hs : s.index ≤ s.string.length) (hr : s.string.length - s.index ≤ M) :
    GoodOut s true ((unaryP e).parse s) := by
  have h : GoodOut s (false || true) ((unaryP e).parse s) :=
    bind_goodI (b := false) (c := true)
      (maybe_good hs (NOT_good s hs))
      (fun n s₁ h1 hstr hle hlt hbd => by
        have hs₁ : s₁.index ≤ s₁.string.length := by rw [hstr]; exact hbd
        have hr₁ : s₁.string.length - s₁.index ≤ M := by rw [hstr]; omega
        exact map_good (atom_good He s₁ hs₁ hr₁))
  simpa using h

/-- Goodness of the inner (operator, term) pair parser of the infix builder. -/
theorem binOp_pair_good {opP : Parser (AST → AST → AST)} {termP : Parser AST} {M : Nat}
    (hop : GoodTok opP)
    (ht : GoodUpTo M termP)
    (s : Source) (hs : s.index ≤ s.string.length) (hr : s.string.length - s.index ≤ M) :
    GoodOut s true ((opP.bind fun operator =>
      termP.bind fun term => Parser.constant (operator, term)).parse s) := by
  have h := bind_goodI (c := true) (hop s hs)
    (fun op s₁ h1 hstr hle hlt hbd => by
      have hs₁ : s₁.index ≤ s₁.string.length := by rw [hstr]; exact hbd
      have hr₁ : s₁.string.length - s₁.index ≤ M := by
        rw [hstr]
        have := hlt rfl
        omega
      have h2 := bind_goodI (c := false) (ht s₁ hs₁ hr₁)
        (fun t s₂ h2 hstr₂ hle₂ hlt₂ hbd₂ =>
          constant_good (op, t) s₂ (by rw [hstr₂]; exact hbd₂))
      simpa using h2)
  simpa using h

/-- Goodness of the infix builder over a good operator token and a good term
parser. -/
theorem binOp_good {opP : Parser (AST → AST → AST)} {termP : Parser AST} {M : Nat}
    (hop : GoodTok opP)
    (ht : GoodUpTo M termP)
    (s : Source) (hs : s.index ≤ s.string.length) (hr : s.string.length - s.index ≤ M) :
    GoodOut s true ((binOp opP termP).parse s) := by
  have h : GoodOut s (true || false) ((binOp opP termP).parse s) :=
    bind_goodI (c := false) (ht s hs hr)
      (fun term s₁ h1 hstr hle hlt hbd => by
        have hs₁ : s₁.index ≤ s₁.string.length := by rw [hstr]; exact hbd
        refine map_good (zeroOrMore_good _ s₁ hs₁ (fun s₂ hstr₂ hle₂ hbd₂ => by
          refine binOp_pair_good hop ht s₂ hbd₂ ?_
          rw [hstr₂, hstr]
          omega)))
  simpa using h

/-- Goodness of the `product` rule given a good cell. -/
theorem product_good {e : Parser AST} {M : Nat} (He : GoodBelow M e) :
    GoodUpTo M (productP e) :=
  fun s hs hr => binOp_good (STAR_good.orTok SLASH_good) (fun t ht hrt => unary_good He t ht hrt)
    s hs hr

/-- Goodness of the `sum` rule given a good cell. -/
theorem sum_good {e : Parser AST} {M : Nat} (He : GoodBelow M e) :
    GoodUpTo M (sumP e) :=
  fun s hs hr => binOp_good (PLUS_good.orTok MINUS_good) (product_good He) s hs hr

/-- Goodness of the `comparison` rule given a good cell. -/
theorem comparison_good {e : Parser AST} {M : Nat} (He : GoodBelow M e) :
    GoodUpTo M (comparisonP e) :=
  fun s hs hr => binOp_good (EQUAL_good.orTok NOT_EQUAL_good) (sum_good He) s hs hr

/-! Goodness of the statement grammar, relative to both cells. -/

/-- Goodness of `SEMICOLON (constant node)`, the common statement tail. -/
theorem semicolon_tail_good (node : AST) (s : Source) (hs : s.index ≤ s.string.length) :
    GoodOut s true ((SEMICOLON.and (Parser.constant node)).parse s) := by
  have h : GoodOut s (true || false) ((SEMICOLON.and (Parser.constant node)).parse s) :=
    and_goodI (SEMICOLON_good s hs)
      (fun s₂ hstr₂ hle₂ hlt₂ hbd₂ =>
        constant_good node s₂ (by rw [hstr₂]; exact hbd₂))
  simpa using h

/-- Goodness of the `returnStatement` rule. -/
theorem returnStatement_good {e : Parser AST} {M : Nat} (He : GoodBelow M e) :
    GoodBelow M (returnStatementP e) := by
  intro s hs hr
  have h : GoodOut s ((true || true) || true) ((returnStatementP e).parse s) :=
    bind_goodI
      (and_goodI (c := true) (RETURN_good s hs)
        (fun s₁ hstr hle hlt hbd => He.later (le_of_lt hr) hstr (hlt rfl) hbd))
      (fun term s₁ h1 hstr hle hlt hbd =>
        semicolon_tail_good (AST.Return term) s₁ (by rw [hstr]; exact hbd))
  simpa using h

/-- Goodness of the `expressionStatement` rule. -/
theorem expressionStatement_good {e : Parser AST} {M : Nat} (He : GoodBelow M e) :
    GoodBelow M (expressionStatementP e) := by
  intro s hs hr
  have h : GoodOut s (true || true) ((expressionStatementP e).parse s) :=
    bind_goodI (He s hs hr)
      (fun term s₁ h1 hstr hle hlt hbd =>
        semicolon_tail_good term s₁ (by rw [hstr]; exact hbd))
  simpa using h

/-- Goodness of the `ifStatement` rule. -/
theorem ifStatement_good {e st : Parser AST} {M : Nat}
    (He : GoodBelow M e) (Hst : GoodBelowNext M st) :
    GoodBelow M (ifStatementP e st) := by
  intro s hs hr
  have h : GoodOut s (((true || true) || true) || true) ((ifStatementP e st).parse s) :=
    bind_goodI
      (and_goodI (c := true)
        (and_goodI (c := true) (IF_good s hs)
          (fun s₁ hstr hle hlt hbd =>
            LEFT_PAREN_good s₁ (by rw [hstr]; exact hbd)))
        (fun s₂ hstr hle hlt hbd => He.later (le_of_lt hr) hstr (hlt rfl) hbd))
      (fun conditional s₃ h3 hstr₃ hle₃ hlt₃ hbd₃ => by
        have hs₃ : s₃.index ≤ s₃.string.length := by rw [hstr₃]; exact hbd₃
        have hlt₃' := hlt₃ rfl
        have hr₃ : s₃.string.length - s₃.index < M := by rw [hstr₃]; omega
        have h4 : GoodOut s₃ ((true || true) || true)
            (((RIGHT_PAREN.and st).bind fun consequence =>
              (ELSE.and st).bind fun alternative =>
                Parser.constant (AST.If conditional consequence alternative)).parse s₃) :=
          bind_goodI
            (and_goodI (c := true) (RIGHT_PAREN_good s₃ hs₃)
              (fun s₄ hstr₄ hle₄ hlt₄ hbd₄ => Hst.laterNext hr₃ hstr₄ (hlt₄ rfl) hbd₄))
            (fun consequence s₅ h5 hstr₅ hle₅ hlt₅ hbd₅ => by
              have hs₅ : s₅.index ≤ s₅.string.length := by rw [hstr₅]; exact hbd₅
              have hlt₅' := hlt₅ rfl
              have hr₅ : s₅.string.length - s₅.index < M := by rw [hstr₅]; omega
              have h6 : GoodOut s₅ ((true || true) || false)
                  (((ELSE.and st).bind fun alternative =>
                    Parser.constant (AST.If conditional consequence alternative)).parse s₅) :=
                bind_goodI
                  (and_goodI (c := true) (ELSE_good s₅ hs₅)
                    (fun s₆ hstr₆ hle₆ hlt₆ hbd₆ => Hst.laterNext hr₅ hstr₆ (hlt₆ rfl) hbd₆))
                  (fun alternative s₇ h7 hstr₇ hle₇ hlt₇ hbd₇ =>
                    constant_good (AST.If conditional consequence alternative) s₇
                      (by rw [hstr₇]; exact hbd₇))
              simpa using h6)
        simpa using h4)
  simpa using h

/-- Goodness of the `whileStatement` rule. -/
theorem whileStatement_good {e st : Parser AST} {M : Nat}
    (He : GoodBelow M e) (Hst : GoodBelowNext M st) :
    GoodBelow M (whileStatementP e st) := by
  intro s hs hr
  have h : GoodOut s (((true || true) || true) || true) ((whileStatementP e st).parse s) :=
    bind_goodI
      (and_goodI (c := true)
        (and_goodI (c := true) (WHILE_good s hs)
          (fun s₁ hstr hle hlt hbd =>
            LEFT_PAREN_good s₁ (by rw [hstr]; exact hbd)))
        (fun s₂ hstr hle hlt hbd => He.later (le_of_lt hr) hstr (hlt rfl) hbd))
      (fun conditional s₃ h3 hstr₃ hle₃ hlt₃ hbd₃ => by
        have hs₃ : s₃.index ≤ s₃.string.length := by rw [hstr₃]; exact hbd₃
        have hlt₃' := hlt₃ rfl
        have hr₃ : s₃.string.length - s₃.index < M := by rw [hstr₃]; omega
        have h4 : GoodOut s₃ ((true || true) || false)
            (((RIGHT_PAREN.and st).bind fun body =>
              Parser.constant (AST.While conditional body)).parse s₃) :=
          bind_goodI
            (and_goodI (c := true) (RIGHT_PAREN_good s₃ hs₃)
              (fun s₄ hstr₄ hle₄ hlt₄ hbd₄ => Hst.laterNext hr₃ hstr₄ (hlt₄ rfl) hbd₄))
            (fun body s₅ h5 hstr₅ hle₅ hlt₅ hbd₅ =>
              constant_good (AST.While conditional body) s₅ (by rw [hstr₅]; exact hbd₅))
        simpa using h4)
  simpa using h

/-- Goodness of the `varStatement` rule. -/
theorem varStatement_good {e : Parser AST} {M : Nat} (He : GoodBelow M e) :
    GoodBelow M (varStatementP e) := by
  intro s hs hr
  have h : GoodOut s ((true || true) || ((true || true) || true)) ((varStatementP e).parse s) :=
    bind_goodI
      (and_goodI (c := true) (VAR_good s hs)
        (fun s₁ hstr hle hlt hbd => ID_good s₁ (by rw [hstr]; exact hbd)))
      (fun name s₂ h2 hstr₂ hle₂ hlt₂ hbd₂ => by
        have hs₂ : s₂.index ≤ s₂.string.length := by rw [hstr₂]; exact hbd₂
        have hlt₂' := hlt₂ rfl
        have hr₂ : s₂.string.length - s₂.index < M := by rw [hstr₂]; omega
        have h3 : GoodOut s₂ ((true || true) || true)
            (((ASSIGN.and e).bind fun value =>
              SEMICOLON.and (Parser.constant (AST.Var name value))).parse s₂) :=
          bind_goodI
            (and_goodI (c := true) (ASSIGN_good s₂ hs₂)
              (fun s₃ hstr₃ hle₃ hlt₃ hbd₃ => He.later (le_of_lt hr₂) hstr₃ (hlt₃ rfl) hbd₃))
            (fun value s₄ h4 hstr₄ hle₄ hlt₄ hbd₄ =>
              semicolon_tail_good (AST.Var name value) s₄ (by rw [hstr₄]; exact hbd₄))
        simpa using h3)
  simpa using h

/-- Goodness of the `assignmentStatement` rule. -/
theorem assignmentStatement_good {e : Parser AST} {M : Nat} (He : GoodBelow M e) :
    GoodBelow M (assignmentStatementP e) := by
  intro s hs hr
  have h : GoodOut s (true || ((true || true) || true)) ((assignmentStatementP e).parse s) :=
    bind_goodI (ID_good s hs)
      (fun name s₂ h2 hstr₂ hle₂ hlt₂ hbd₂ => by
        have hs₂ : s₂.index ≤ s₂.string.length := by rw [hstr₂]; exact hbd₂
        have hlt₂' := hlt₂ rfl
        have hr₂ : s₂.string.length - s₂.index < M := by rw [hstr₂]; omega
        have h3 : GoodOut s₂ ((true || true) || true)
            (((ASSIGN.and e).bind fun value =>
              SEMICOLON.and (Parser.constant (AST.Assign name value))).parse s₂) :=
          bind_goodI
            (and_goodI (c := true) (ASSIGN_good s₂ hs₂)
              (fun s₃ hstr₃ hle₃ hlt₃ hbd₃ => He.later (le_of_lt hr₂) hstr₃ (hlt₃ rfl) hbd₃))
            (fun value s₄ h4 hstr₄ hle₄ hlt₄ hbd₄ =>
              semicolon_tail_good (AST.Assign name value) s₄ (by rw [hstr₄]; exact hbd₄))
        simpa using h3)
  simpa using h

/-- Goodness of the `blockStatement` rule. -/
theorem blockStatement_good {st : Parser AST} {M : Nat} (Hst : GoodBelowNext M st) :
    GoodBelow M (blockStatementP st) := by
  intro s hs hr
  have h : GoodOut s ((true || false) || (true || false)) ((blockStatementP st).parse s) :=
    bind_goodI
      (and_goodI (c := false) (LEFT_BRACE_good s hs)
        (fun s₁ hstr₁ hle₁ hlt₁ hbd₁ => by
          have hs₁ : s₁.index ≤ s₁.string.length := by rw [hstr₁]; exact hbd₁
          have hlt₁' := hlt₁ rfl
          exact zeroOrMore_good st s₁ hs₁ (fun s₂ hstr₂ hle₂ hbd₂ => by
            refine Hst s₂ hbd₂ ?_
            rw [hstr₂, hstr₁]
            omega)))
      (fun statements s₃ h3 hstr₃ hle₃ hlt₃ hbd₃ => by
        have hs₃ : s₃.index ≤ s₃.string.length := by rw [hstr₃]; exact hbd₃
        have h4 : GoodOut s₃ (true || false)
            ((RIGHT_BRACE.and (Parser.constant (AST.Block statements))).parse s₃) :=
          and_goodI (RIGHT_BRACE_good s₃ hs₃)
            (fun s₄ hstr₄ hle₄ hlt₄ hbd₄ =>
              constant_good (AST.Block statements) s₄ (by rw [hstr₄]; exact hbd₄))
        simpa using h4)
  simpa using h

/-- Goodness of the `parameters` rule (it can match nothing). -/
theorem parameters_good : GoodLax parametersP := by
  intro s hs
  refine or_good ?_ (constant_good [] s hs)
  have h : GoodOut s (true || (false || false))
      ((ID.bind fun param =>
        (Parser.zeroOrMore (COMMA.and ID)).bind fun params =>
          Parser.constant (param :: params)).parse s) :=
    bind_goodI (ID_good s hs)
      (fun param s₁ h1 hstr₁ hle₁ hlt₁ hbd₁ => by
        have hs₁ : s₁.index ≤ s₁.string.length := by rw [hstr₁]; exact hbd₁
        exact bind_goodI
          (zeroOrMore_good (COMMA.and ID) s₁ hs₁ (fun s₂ hstr₂ hle₂ hbd₂ => by
            have h3 : GoodOut s₂ (true || true) ((COMMA.and ID).parse s₂) :=
              and_goodI (COMMA_good s₂ hbd₂)
                (fun s₃ hstr₃ hle₃ hlt₃ hbd₃ => ID_good s₃ (by rw [hstr₃]; exact hbd₃))
            simpa using h3))
          (fun params s₂ h2 hstr₂ hle₂ hlt₂ hbd₂ =>
            constant_good (param :: params) s₂ (by rw [hstr₂]; exact hbd₂)))
  exact h.lax

/-- Goodness of the `functionStatement` rule. -/
theorem functionStatement_good {st : Parser AST} {M : Nat} (Hst : GoodBelowNext M st) :
    GoodBelow M (functionStatementP st) := by
  intro s hs hr
  have h : GoodOut s ((true || true) || ((true || false) || (true || false)))
      ((functionStatementP st).parse s) :=
    bind_goodI
      (and_goodI (c := true) (FUNCTION_good s hs)
        (fun s₁ hstr₁ hle₁ hlt₁ hbd₁ => ID_good s₁ (by rw [hstr₁]; exact hbd₁)))
      (fun name s₂ h2 hstr₂ hle₂ hlt₂ hbd₂ => by
        have hs₂ : s₂.index ≤ s₂.string.length := by rw [hstr₂]; exact hbd₂
        have hlt₂' := hlt₂ rfl
        have hr₂ : s₂.string.length - s₂.index < M := by rw [hstr₂]; omega
        exact bind_goodI
          (and_goodI (c := false) (LEFT_PAREN_good s₂ hs₂)
            (fun s₃ hstr₃ hle₃ hlt₃ hbd₃ =>
              parameters_good s₃ (by rw [hstr₃]; exact hbd₃)))
          (fun parameters s₄ h4 hstr₄ hle₄ hlt₄ hbd₄ => by
            have hs₄ : s₄.index ≤ s₄.string.length := by rw [hstr₄]; exact hbd₄
            have hlt₄' := hlt₄ (by rfl)
            have hr₄ : s₄.string.length - s₄.index < M := by rw [hstr₄]; omega
            exact bind_goodI
              (and_goodI (c := true) (RIGHT_PAREN_good s₄ hs₄)
                (fun s₅ hstr₅ hle₅ hlt₅ hbd₅ => by
                  refine blockStatement_good Hst s₅ (by rw [hstr₅]; exact hbd₅) ?_
                  have hlt₅' := hlt₅ rfl
                  rw [hstr₅]
                  omega))
              (fun block s₆ h6 hstr₆ hle₆ hlt₆ hbd₆ =>
                constant_good (AST.Function name parameters block) s₆
                  (by rw [hstr₆]; exact hbd₆))))
  simpa using h

/-- Goodness of the full statement alternative chain. -/
theorem statementChain_good {e st : Parser AST} {M : Nat}
    (He : GoodBelow M e) (Hst : GoodBelowNext M st) :
    GoodBelow M (statementParserP e st) := by
  intro s hs hr
  exact or_good (or_good (or_good (or_good (or_good (or_good (or_good
    (returnStatement_good He s hs hr)
    (functionStatement_good Hst s hs hr))
    (ifStatement_good He Hst s hs hr))
    (whileStatement_good He Hst s hs hr))
    (varStatement_good He s hs hr))
    (assignmentStatement_good He s hs hr))
    (blockStatement_good Hst s hs hr))
    (expressionStatement_good He s hs hr)

/-- Totality of the wired grammar cells, by induction on the fuel: with more
fuel than remaining input the `expression` cell never returns an exception or
diverges, and every success strictly consumes; likewise for the `statement`
cell. -/
theorem grammar_good (n : Nat) :
    GoodBelow n (expressionF n) ∧ GoodBelowNext n (statementF n) := by
  induction n with
  | zero =>
    constructor
    · intro s hs hr
      exact absurd hr (Nat.not_lt_zero _)
    · intro s hs hr
      exact absurd hr (Nat.not_lt_zero _)
  | succ n ih =>
    obtain ⟨ihe, ihst⟩ := ih
    constructor
    · intro s hs hr
      show GoodOut s true ((comparisonP (expressionF n)).parse s)
      exact comparison_good ihe s hs (by omega)
    · intro s hs hr
      show GoodOut s true ((statementParserP (expressionF n) (statementF n)).parse s)
      exact statementChain_good ihe ihst s hs (by omega)

/-- The top-level parser (with its canonical fuel) succeeds on every input,
producing a `Block` and stopping at an in-bounds position. -/
theorem parserF_ok (string : List Char) :
    ∃ l s₂, (parserF (string.length + 2)).parse ⟨string, 0⟩ = POut.ok (AST.Block l) s₂ := by
  have hst := (grammar_good (string.length + 2)).2
  obtain ⟨trivia, s₁, h₁, hstr₁, hle₁, hbd₁⟩ :=
    zeroOrMore_ok (whitespace.or comments) ⟨string, 0⟩ (Nat.zero_le _)
      (fun s' _ _ h3 => trivia_good s' h3)
  have h₁' : ignored.parse ⟨string, 0⟩ = POut.ok trivia s₁ := h₁
  have hstr₁' : s₁.string = string := hstr₁
  have hbd₁' : s₁.index ≤ string.length := hbd₁
  have hs₁ : s₁.index ≤ s₁.string.length := by rw [hstr₁']; exact hbd₁'
  obtain ⟨l, s₂, h₂, hstr₂, hle₂, hbd₂⟩ :=
    zeroOrMore_ok (statementF (string.length + 2)) s₁ hs₁
      (fun s' hstr' hle' hbd' => hst s' hbd' (by rw [hstr', hstr₁']; omega))
  refine ⟨l, s₂, ?_⟩
  show ((ignored.and (Parser.zeroOrMore (statementF (string.length + 2)))).bind
    (fun statements => Parser.constant (AST.Block statements))).parse ⟨string, 0⟩ =
      POut.ok (AST.Block l) s₂
  simp only [Parser.and, Parser.bind, Parser.constant, h₁', h₂]

/-- The "parse error at index" message is never the "could not parse anything
at all" message, whatever the index text. -/
theorem atIndex_ne_noParse (x : List Char) :
    "Parse error at index ".toList ++ x ≠
      "Parse error: could not parse anything at all".toList := by
  intro h
  have h21 := congrArg (fun l => List.take 21 l) h
  simp only at h21
  rw [List.take_left' (by decide)] at h21
  revert h21
  decide

/-! Characterization of the AST structural-equality methods. -/

/-- Element-wise string-array equality coincides with list equality. -/
theorem strListEquals_iff : ∀ a b : List (List Char), strListEquals a b = true ↔ a = b := by
  intro a
  induction a with
  | nil =>
    intro b
    cases b with
    | nil => exact iff_of_true rfl rfl
    | cons y ys =>
      exact iff_of_false (fun h => by simp [strListEquals] at h) (fun h => List.noConfusion h)
  | cons x xs ih =>
    intro b
    cases b with
    | nil =>
      exact iff_of_false (fun h => by simp [strListEquals] at h) (fun h => List.noConfusion h)
    | cons y ys =>
      have h := ih ys
      simp only [strListEquals, Bool.and_eq_true, List.zip_cons_cons, List.all_cons,
        beq_iff_eq, List.length_cons, List.cons.injEq] at h ⊢
      constructor
      · rintro ⟨hlen, hxy, hall⟩
        exact ⟨hxy, h.mp ⟨by omega, hall⟩⟩
      · rintro ⟨hxy, hrest⟩
        have h2 := h.mpr hrest
        exact ⟨by omega, hxy, h2.2⟩

/-- Distinct variants: `equals` is `false` and equality is absurd. -/
theorem offDiag {a b : AST} (h1 : AST.equals a b = false) (h2 : a = b → False) :
    (AST.equals a b = true ↔ a = b) :=
  iff_of_false (fun h => by rw [h1] at h; exact Bool.noConfusion h) h2

/-- Distinct list shapes: `equalsList` is `false` and equality is absurd. -/
theorem offDiagL {xs ys : List AST} (h1 : AST.equalsList xs ys = false) (h2 : xs = ys → False) :
    (AST.equalsList xs ys = true ↔ xs = ys) :=
  iff_of_false (fun h => by rw [h1] at h; exact Bool.noConfusion h) h2

/-- Joint size-indexed characterization: the `equals` methods decide exactly
structural equality of AST nodes (and node arrays). -/
theorem equals_iff_sized : ∀ n : Nat,
    (∀ a b : AST, sizeOf a ≤ n → (AST.equals a b = true ↔ a = b)) ∧
    (∀ xs ys : List AST, sizeOf xs ≤ n → (AST.equalsList xs ys = true ↔ xs = ys)) := by
  intro n
  induction n using Nat.strong_induction_on with
  | _ n ih =>
  constructor
  · intro a b hsz
    cases a with
    | Number v₁ =>
      cases b <;> try exact offDiag rfl (fun h => AST.noConfusion h)
      next v₂ =>
        rw [show AST.equals (AST.Number v₁) (AST.Number v₂) = (v₁ == v₂) from rfl]
        simp
    | Id v₁ =>
      cases b <;> try exact offDiag rfl (fun h => AST.noConfusion h)
      next v₂ =>
        rw [show AST.equals (AST.Id v₁) (AST.Id v₂) = (v₁ == v₂) from rfl]
        simp
    | Not t₁ =>
      have hsz' := hsz; simp at hsz'
      cases b <;> try exact offDiag rfl (fun h => AST.noConfusion h)
      next t₂ =>
        rw [show AST.equals (AST.Not t₁) (AST.Not t₂) = AST.equals t₁ t₂ from rfl,
          (ih (sizeOf t₁) (by omega)).1 t₁ t₂ le_rfl]
        simp
    | Equal l₁ r₁ =>
      have hsz' := hsz; simp at hsz'
      cases b <;> try exact offDiag rfl (fun h => AST.noConfusion h)
      next l₂ r₂ =>
        rw [show AST.equals (AST.Equal l₁ r₁) (AST.Equal l₂ r₂) =
            (AST.equals l₁ l₂ && AST.equals r₁ r₂) from rfl,
          Bool.and_eq_true, (ih (sizeOf l₁) (by omega)).1 l₁ l₂ le_rfl,
          (ih (sizeOf r₁) (by omega)).1 r₁ r₂ le_rfl]
        simp
    | NotEqual l₁ r₁ =>
      have hsz' := hsz; simp at hsz'
      cases b <;> try exact offDiag rfl (fun h => AST.noConfusion h)
      next l₂ r₂ =>
        rw [show AST.equals (AST.NotEqual l₁ r₁) (AST.NotEqual l₂ r₂) =
            (AST.equals l₁ l₂ && AST.equals r₁ r₂) from rfl,
          Bool.and_eq_true, (ih (sizeOf l₁) (by omega)).1 l₁ l₂ le_rfl,
          (ih (sizeOf r₁) (by omega)).1 r₁ r₂ le_rfl]
        simp
    | Add l₁ r₁ =>
      have hsz' := hsz; simp at hsz'
      cases b <;> try exact offDiag rfl (fun h => AST.noConfusion h)
      next l₂ r₂ =>
        rw [show AST.equals (AST.Add l₁ r₁) (AST.Add l₂ r₂) =
            (AST.equals l₁ l₂ && AST.equals r₁ r₂) from rfl,
          Bool.and_eq_true, (ih (sizeOf l₁) (by omega)).1 l₁ l₂ le_rfl,
          (ih (sizeOf r₁) (by omega)).1 r₁ r₂ le_rfl]
        simp
    | Subtract l₁ r₁ =>
      have hsz' := hsz; simp at hsz'
      cases b <;> try exact offDiag rfl (fun h => AST.noConfusion h)
      next l₂ r₂ =>
        rw [show AST.equals (AST.Subtract l₁ r₁) (AST.Subtract l₂ r₂) =
            (AST.equals l₁ l₂ && AST.equals r₁ r₂) from rfl,
          Bool.and_eq_true, (ih (sizeOf l₁) (by omega)).1 l₁ l₂ le_rfl,
          (ih (sizeOf r₁) (by omega)).1 r₁ r₂ le_rfl]
        simp
    | Multiply l₁ r₁ =>
      have hsz' := hsz; simp at hsz'
      cases b <;> try exact offDiag rfl (fun h => AST.noConfusion h)
      next l₂ r₂ =>
        rw [show AST.equals (AST.Multiply l₁ r₁) (AST.Multiply l₂ r₂) =
            (AST.equals l₁ l₂ && AST.equals r₁ r₂) from rfl,
          Bool.and_eq_true, (ih (sizeOf l₁) (by omega)).1 l₁ l₂ le_rfl,
          (ih (sizeOf r₁) (by omega)).1 r₁ r₂ le_rfl]
        simp
    | Divide l₁ r₁ =>
      have hsz' := hsz; simp at hsz'
      cases b <;> try exact offDiag rfl (fun h => AST.noConfusion h)
      next l₂ r₂ =>
        rw [show AST.equals (AST.Divide l₁ r₁) (AST.Divide l₂ r₂) =
            (AST.equals l₁ l₂ && AST.equals r₁ r₂) from rfl,
          Bool.and_eq_true, (ih (sizeOf l₁) (by omega)).1 l₁ l₂ le_rfl,
          (ih (sizeOf r₁) (by omega)).1 r₁ r₂ le_rfl]
        simp
    | Call c₁ a₁ =>
      have hsz' := hsz; simp at hsz'
      cases b <;> try exact offDiag rfl (fun h => AST.noConfusion h)
      next c₂ a₂ =>
        rw [show AST.equals (AST.Call c₁ a₁) (AST.Call c₂ a₂) =
            (c₁ == c₂ && AST.equalsList a₁ a₂) from rfl,
          Bool.and_eq_true, (ih (sizeOf a₁) (by omega)).2 a₁ a₂ le_rfl]
        simp
    | Return t₁ =>
      have hsz' := hsz; simp at hsz'
      cases b <;> try exact offDiag rfl (fun h => AST.noConfusion h)
      next t₂ =>
        rw [show AST.equals (AST.Return t₁) (AST.Return t₂) = AST.equals t₁ t₂ from rfl,
          (ih (sizeOf t₁) (by omega)).1 t₁ t₂ le_rfl]
        simp
    | Block s₁ =>
      have hsz' := hsz; simp at hsz'
      cases b <;> try exact offDiag rfl (fun h => AST.noConfusion h)
      next s₂ =>
        rw [show AST.equals (AST.Block s₁) (AST.Block s₂) = AST.equalsList s₁ s₂ from rfl,
          (ih (sizeOf s₁) (by omega)).2 s₁ s₂ le_rfl]
        simp
    | If c₁ t₁ e₁ =>
      have hsz' := hsz; simp at hsz'
      cases b <;> try exact offDiag rfl (fun h => AST.noConfusion h)
      next c₂ t₂ e₂ =>
        rw [show AST.equals (AST.If c₁ t₁ e₁) (AST.If c₂ t₂ e₂) =
            (AST.equals c₁ c₂ && AST.equals t₁ t₂ && AST.equals e₁ e₂) from rfl,
          Bool.and_eq_true, Bool.and_eq_true,
          (ih (sizeOf c₁) (by omega)).1 c₁ c₂ le_rfl,
          (ih (sizeOf t₁) (by omega)).1 t₁ t₂ le_rfl,
          (ih (sizeOf e₁) (by omega)).1 e₁ e₂ le_rfl]
        simp [and_assoc]
    | Function n₁ p₁ b₁ =>
      have hsz' := hsz; simp at hsz'
      cases b <;> try exact offDiag rfl (fun h => AST.noConfusion h)
      next n₂ p₂ b₂ =>
        rw [show AST.equals (AST.Function n₁ p₁ b₁) (AST.Function n₂ p₂ b₂) =
            (n₁ == n₂ && strListEquals p₁ p₂ && AST.equals b₁ b₂) from rfl,
          Bool.and_eq_true, Bool.and_eq_true, strListEquals_iff p₁ p₂,
          (ih (sizeOf b₁) (by omega)).1 b₁ b₂ le_rfl]
        simp [and_assoc]
    | Var n₁ v₁ =>
      have hsz' := hsz; simp at hsz'
      cases b <;> try exact offDiag rfl (fun h => AST.noConfusion h)
      next n₂ v₂ =>
        rw [show AST.equals (AST.Var n₁ v₁) (AST.Var n₂ v₂) =
            (n₁ == n₂ && AST.equals v₁ v₂) from rfl,
          Bool.and_eq_true, (ih (sizeOf v₁) (by omega)).1 v₁ v₂ le_rfl]
        simp
    | Assign n₁ v₁ =>
      have hsz' := hsz; simp at hsz'
      cases b <;> try exact offDiag rfl (fun h => AST.noConfusion h)
      next n₂ v₂ =>
        rw [show AST.equals (AST.Assign n₁ v₁) (AST.Assign n₂ v₂) =
            (n₁ == n₂ && AST.equals v₁ v₂) from rfl,
          Bool.and_eq_true, (ih (sizeOf v₁) (by omega)).1 v₁ v₂ le_rfl]
        simp
    | While c₁ b₁ =>
      have hsz' := hsz; simp at hsz'
      cases b <;> try exact offDiag rfl (fun h => AST.noConfusion h)
      next c₂ b₂ =>
        rw [show AST.equals (AST.While c₁ b₁) (AST.While c₂ b₂) =
            (AST.equals c₁ c₂ && AST.equals b₁ b₂) from rfl,
          Bool.and_eq_true, (ih (sizeOf c₁) (by omega)).1 c₁ c₂ le_rfl,
          (ih (sizeOf b₁) (by omega)).1 b₁ b₂ le_rfl]
        simp
  · intro xs ys hsz
    cases xs with
    | nil =>
      cases ys with
      | nil => exact iff_of_true rfl rfl
      | cons y ys =>
        exact offDiagL rfl (fun h => List.noConfusion h)
    | cons x xs =>
      cases ys with
      | nil =>
        exact offDiagL rfl (fun h => List.noConfusion h)
      | cons y ys =>
        have hsz' := hsz; simp at hsz'
        rw [show AST.equalsList (x :: xs) (y :: ys) =
            (AST.equals x y && AST.equalsList xs ys) from rfl,
          Bool.and_eq_true, (ih (sizeOf x) (by omega)).1 x y le_rfl,
          (ih (sizeOf xs) (by omega)).2 xs ys le_rfl]
        simp

/-- The `equals` method decides exactly structural equality of AST nodes. -/
theorem equals_iff (a b : AST) : AST.equals a b = true ↔ a = b :=
  (equals_iff_sized (sizeOf a)).1 a b le_rfl

/-- The paired recursion `equalsList` computes exactly the source's
`length === length && every((x, i) => x.equals(other[i]))` comparison. -/
theorem equalsList_eq_zip : ∀ xs ys : List AST,
    AST.equalsList xs ys =
      (xs.length == ys.length && ((xs.zip ys).all fun q => AST.equals q.1 q.2)) := by
  intro xs
  induction xs with
  | nil =>
    intro ys
    cases ys <;> rfl
  | cons x xs ih =>
    intro ys
    cases ys with
    | nil => rfl
    | cons y ys =>
      rw [show AST.equalsList (x :: xs) (y :: ys) =
        (AST.equals x y && AST.equalsList xs ys) from rfl, ih]
      simp only [List.length_cons, List.zip_cons_cons, List.all_cons]
      rw [show ((xs.length + 1 == ys.length + 1) : Bool) = (xs.length == ys.length) from by
        rw [Bool.eq_iff_iff]
        simp only [beq_iff_eq]
        omega]
      cases AST.equals x y <;> cases (xs.length == ys.length : Bool) <;> simp

/-! Keyword-boundary helper. -/

/-- A keyword pattern fails when the keyword is immediately followed by a word
character (the `\b` boundary rejects the position). -/
theorem kwRegexp_word_char (word : List Char) (c : Char) (rest : List Char)
    (hc : isWordChar c = true) : kwRegexp word (word ++ c :: rest) = none := by
  have hdrop : (word ++ c :: rest).drop word.length = c :: rest := List.drop_left _ _
  simp [kwRegexp, hdrop, boundaryOk, hc]

/-! The claims. -/

/-- C1: parsing the spec's factorial example program with the top-level
parser's parse-to-completion operation succeeds and returns an AST
structurally equal to the expected
`Block([FunctionDecl("factorial", ["n"], ...)])` tree. -/
theorem C1_factorial_parse :
    ∃ result : AST, runParser factorialSource = Completion.ok result ∧
      AST.equals result factorialAST = true :=
  ⟨factorialAST, rfl, (equals_iff _ _).mpr rfl⟩

/-- C2 counterexample: on the entirely non-matching input `"@@@"` the
top-level parse-to-completion does not report the dedicated "no match at all"
error (it reports the "did not consume to end of input" error at index 0). -/
theorem C2_counterexample :
    runParser "@@@".toList ≠
      Completion.thrown ("Parse error: could not parse anything at all".toList) := by
  intro h
  have h0 : runParser "@@@".toList =
      Completion.thrown ("Parse error at index ".toList ++ (Nat.repr 0).toList) := rfl
  rw [h0] at h
  injection h with hmsg
  exact atIndex_ne_noParse _ hmsg

/-- C2 (amended): an entirely non-matching input such as `"@@@"` makes the
top-level parser succeed with `Block([])` consuming nothing, so
parse-to-completion reports the "did not consume to end of input" error at
index 0 — a message distinct from the "no match at all" error, which the
top-level parser never triggers. -/
theorem C2_amended :
    runParser "@@@".toList = Completion.thrown ("Parse error at index 0".toList) ∧
    "Parse error at index 0".toList ≠
      "Parse error: could not parse anything at all".toList := by
  exact ⟨rfl, by decide⟩

/-- C3: for every input string the top-level parser's parse method returns a
successful `Block` result (never `null`); the empty string and the fully
non-matching `"@@@"` yield `Block([])` with nothing consumed, so the "could
not parse anything at all" branch of `parseStringToCompletion` is unreachable
for the top-level parser. -/
theorem C3_parser_total (string : List Char) :
    (∃ statements s', (parserF (string.length + 2)).parse ⟨string, 0⟩ =
      POut.ok (AST.Block statements) s') ∧
    (parserF 2).parse ⟨([] : List Char), 0⟩ = POut.ok (AST.Block []) ⟨[], 0⟩ ∧
    (parserF 5).parse ⟨"@@@".toList, 0⟩ = POut.ok (AST.Block []) ⟨"@@@".toList, 0⟩ ∧
    runParser string ≠
      Completion.thrown ("Parse error: could not parse anything at all".toList) := by
  refine ⟨parserF_ok string, rfl, rfl, ?_⟩
  intro hcontra
  obtain ⟨l, s₂, h⟩ := parserF_ok string
  have hP : runParser string =
      Parser.parseStringToCompletion (parserF (string.length + 2)) string := rfl
  rw [hP] at hcontra
  simp only [Parser.parseStringToCompletion, h] at hcontra
  split at hcontra
  · injection hcontra with hmsg
    exact atIndex_ne_noParse _ hmsg
  · exact Completion.noConfusion hcontra

/-- C4: whenever the underlying parser succeeds, parse-to-completion returns
the parsed value when the resulting position equals the input length, and
otherwise throws the hard parse error reporting the offset of the first
unconsumed character; concretely, a valid program followed by a stray `)`
yields that error, never a truncated success. -/
theorem C4_parse_to_completion {T : Type} (p : Parser T) (string : List Char)
    (v : T) (s' : Source) (h : p.parse ⟨string, 0⟩ = POut.ok v s') :
    (s'.index = s'.string.length → p.parseStringToCompletion string = Completion.ok v) ∧
    (s'.index ≠ s'.string.length → p.parseStringToCompletion string =
      Completion.thrown ("Parse error at index ".toList ++ (Nat.repr s'.index).toList)) ∧
    runParser "1;)".toList = Completion.thrown ("Parse error at index 2".toList) := by
  refine ⟨?_, ?_, rfl⟩
  · intro he
    simp [Parser.parseStringToCompletion, h, he]
  · intro hne
    simp [Parser.parseStringToCompletion, h, hne]

/-- Witness for C4: the top-level parser on `"@@@"` succeeds at index 0 and
parse-to-completion throws the corresponding offset error. -/
theorem C4_witness :
    (parserF 5).parseStringToCompletion "@@@".toList =
      Completion.thrown ("Parse error at index ".toList ++ (Nat.repr 0).toList) :=
  (C4_parse_to_completion (parserF 5) "@@@".toList (AST.Block []) ⟨"@@@".toList, 0⟩ rfl).2.1
    (by decide)

/-- C5: `or` is left-biased prioritized choice: whenever the left parser
succeeds, its result is returned unchanged (the right parser never
contributes), and when the left parser fails, the result is exactly that of
running the right parser at the same original position. -/
theorem C5_or_left_bias {T : Type} (a b : Parser T) (s : Source) :
    (∀ v s', a.parse s = POut.ok v s' → (a.or b).parse s = POut.ok v s') ∧
    (a.parse s = POut.noMatch → (a.or b).parse s = b.parse s) := by
  constructor
  · intro v s' h
    simp [Parser.or, h]
  · intro h
    simp [Parser.or, h]

/-- Witness for C5: on `"hai"` both branches could match, yet the left
operand's result wins. -/
theorem C5_witness :
    ((Parser.regexp (litRegexp "ha".toList)).or
      (Parser.regexp (litRegexp "hai".toList))).parse ⟨"hai".toList, 0⟩ =
      POut.ok "ha".toList ⟨"hai".toList, 2⟩ ∧
    (Parser.regexp (litRegexp "hai".toList)).parse ⟨"hai".toList, 0⟩ =
      POut.ok "hai".toList ⟨"hai".toList, 3⟩ :=
  ⟨(C5_or_left_bias (Parser.regexp (litRegexp "ha".toList))
      (Parser.regexp (litRegexp "hai".toList)) ⟨"hai".toList, 0⟩).1
        "ha".toList ⟨"hai".toList, 2⟩ rfl, rfl⟩

/-- C6: parsing `"8 - 4 - 2"` with the sum rule yields the left-associative
tree `Subtract(Subtract(8,4),2)`; in general the infix builder folds the
first term as initial accumulator and wraps it once per subsequent
(operator, term) pair. -/
theorem C6_left_assoc :
    (sumP (expressionF 11)).parse ⟨"8 - 4 - 2".toList, 0⟩ =
      POut.ok (AST.Subtract (AST.Subtract (AST.Number 8) (AST.Number 4)) (AST.Number 2))
        ⟨"8 - 4 - 2".toList, 9⟩ ∧
    (∀ (operatorParser : Parser (AST → AST → AST)) (termParser : Parser AST)
      (s : Source) (term : AST) (s₁ : Source)
      (operatorTerms : List ((AST → AST → AST) × AST)) (s₂ : Source),
      termParser.parse s = POut.ok term s₁ →
      (Parser.zeroOrMore (operatorParser.bind fun operator =>
        termParser.bind fun term => Parser.constant (operator, term))).parse s₁ =
        POut.ok operatorTerms s₂ →
      (binOp operatorParser termParser).parse s =
        POut.ok (operatorTerms.foldl (fun left ot => ot.1 left ot.2) term) s₂) := by
  constructor
  · rfl
  · intro opP termP s term s₁ ots s₂ h1 h2
    simp only [binOp, Parser.map, Parser.bind, Parser.constant, h1] at h2 ⊢
    rw [h2]

/-- Witness for C6's general folding property at the `"8 - 4 - 2"` input. -/
theorem C6_witness :
    (binOp (PLUS.or MINUS) (productP (expressionF 11))).parse ⟨"8 - 4 - 2".toList, 0⟩ =
      POut.ok (([((AST.Subtract : AST → AST → AST), AST.Number 4),
        (AST.Subtract, AST.Number 2)]).foldl
          (fun left ot => ot.1 left ot.2) (AST.Number 8)) ⟨"8 - 4 - 2".toList, 9⟩ :=
  C6_left_assoc.2 (PLUS.or MINUS) (productP (expressionF 11)) ⟨"8 - 4 - 2".toList, 0⟩
    (AST.Number 8) ⟨"8 - 4 - 2".toList, 2⟩
    [(AST.Subtract, AST.Number 4), (AST.Subtract, AST.Number 2)] ⟨"8 - 4 - 2".toList, 9⟩
    rfl rfl

/-- C7 counterexample: `zeroOrMore` over the library's own `error` combinator
does not succeed at any position — the exception propagates out of the loop,
refuting "for every combinator a, zeroOrMore(a) succeeds". -/
theorem C7_counterexample :
    (Parser.zeroOrMore (Parser.error "boom".toList : Parser Nat)).parse ⟨"x".toList, 0⟩ =
      POut.err "boom".toList ∧
    ¬ ∃ (l : List Nat) (s' : Source),
      (Parser.zeroOrMore (Parser.error "boom".toList : Parser Nat)).parse ⟨"x".toList, 0⟩ =
        POut.ok l s' := by
  refine ⟨rfl, ?_⟩
  rintro ⟨l, s', h⟩
  rw [show (Parser.zeroOrMore (Parser.error "boom".toList : Parser Nat)).parse
    ⟨"x".toList, 0⟩ = POut.err "boom".toList from rfl] at h
  exact POut.noConfusion h

/-- C7 (amended): for every combinator that never throws and whose successes
strictly advance the position within bounds — as holds for every parser this
grammar repeats — `zeroOrMore` at an in-bounds position succeeds; when the
combinator fails immediately it returns the empty sequence with the position
unchanged, and after a successful first match it conses that value onto the
sequence collected from the new position, ending at the last match's end. -/
theorem C7_zeroOrMore {U : Type} (a : Parser U) (s : Source)
    (hs : s.index ≤ s.string.length)
    (hp : ∀ s', s'.string = s.string → s.index ≤ s'.index → s'.index ≤ s'.string.length →
      GoodOut s' true (a.parse s')) :
    (∃ l s', (Parser.zeroOrMore a).parse s = POut.ok l s') ∧
    (a.parse s = POut.noMatch → (Parser.zeroOrMore a).parse s = POut.ok [] s) ∧
    (∀ v s₁, a.parse s = POut.ok v s₁ →
      ∃ l s', (Parser.zeroOrMore a).parse s₁ = POut.ok l s' ∧
        (Parser.zeroOrMore a).parse s = POut.ok (v :: l) s') := by
  refine ⟨?_, fun h => zeroOrMore_nil a s h, fun v s₁ h => zeroOrMore_step a s hs hp v s₁ h⟩
  obtain ⟨l, s', h, _, _, _⟩ := zeroOrMore_ok a s hs hp
  exact ⟨l, s', h⟩

/-- Witness for C7 (amended) at a concrete repeated literal token. -/
theorem C7_witness :
    ∃ l s', (Parser.zeroOrMore (Parser.regexp (litRegexp "ab".toList))).parse
      ⟨"abab".toList, 0⟩ = POut.ok l s' :=
  (C7_zeroOrMore (Parser.regexp (litRegexp "ab".toList)) ⟨"abab".toList, 0⟩
    (Nat.zero_le _)
    (fun s' _ _ _ =>
      regexp_good (litRegexp_anchored _) (litRegexp_consuming _ (by decide)) s')).1

/-- C8: a successful anchored match returns the matched substring (a prefix
of the text at the offset) as its value, with the next offset equal to
`offset + length(matched substring)`; the original position value is
untouched, and matching is idempotent: repeating the same pattern at the same
position yields identical values and identical resulting offsets. -/
theorem C8_match_spec (r : Regexp) (hA : RegexpAnchored r) (s : Source)
    (pr : ParseResult (List Char)) (h : s.matchRegexp r = some pr) :
    pr.value <+: s.string.drop s.index ∧
    pr.source.index = s.index + pr.value.length ∧
    pr.source.string = s.string ∧
    (∀ pr₂, s.matchRegexp r = some pr₂ →
      pr₂.value = pr.value ∧ pr₂.source.index = pr.source.index) := by
  simp only [Source.matchRegexp] at h
  cases hr : r (s.string.drop s.index) with
  | none => rw [hr] at h; cases h
  | some v =>
    rw [hr] at h
    cases h
    refine ⟨hA _ _ hr, rfl, rfl, ?_⟩
    intro pr₂ h₂
    simp only [Source.matchRegexp, hr] at h₂
    cases h₂
    exact ⟨rfl, rfl⟩

/-- Witness for C8, replicating the "Source matching is idempotent" test:
matching `let` in `"  let"` at offset 2 yields the substring with offset 5. -/
theorem C8_witness :
    ("let".toList <+: ("  let".toList : List Char).drop 2) ∧
    (5 : Nat) = 2 + ("let".toList : List Char).length :=
  ⟨(C8_match_spec (litRegexp "let".toList) (litRegexp_anchored _) ⟨"  let".toList, 2⟩
      ⟨"let".toList, ⟨"  let".toList, 5⟩⟩ rfl).1,
    (C8_match_spec (litRegexp "let".toList) (litRegexp_anchored _) ⟨"  let".toList, 2⟩
      ⟨"let".toList, ⟨"  let".toList, 5⟩⟩ rfl).2.1⟩

/-- C9: AST structural equality holds exactly when the two nodes are the same
variant with recursively equal corresponding fields (hence it is reflexive
and ignores object identity); `Multiply(Id("a"), Number(2))` equals an
independently constructed node of the same shape but not one with swapped
operands, a different literal value, or a different variant. -/
theorem C9_equals_structural :
    (∀ a b : AST, AST.equals a b = true ↔ a = b) ∧
    AST.equals (AST.Multiply (AST.Id "a".toList) (AST.Number 2))
      (AST.Multiply (AST.Id "a".toList) (AST.Number 2)) = true ∧
    AST.equals (AST.Multiply (AST.Id "a".toList) (AST.Number 2))
      (AST.Multiply (AST.Number 2) (AST.Id "a".toList)) = false ∧
    AST.equals (AST.Multiply (AST.Id "a".toList) (AST.Number 2))
      (AST.Multiply (AST.Id "a".toList) (AST.Number 3)) = false ∧
    AST.equals (AST.Multiply (AST.Id "a".toList) (AST.Number 2))
      (AST.Add (AST.Id "a".toList) (AST.Number 2)) = false :=
  ⟨equals_iff, rfl, rfl, rfl, rfl⟩

/-- C10: every keyword token matches its reserved word only as a whole word:
a keyword pattern fails whenever the keyword text is followed by a word
character, so on `"iffy"` all six keyword parsers fail while the identifier
token succeeds consuming the entire identifier. -/
theorem C10_keyword_boundary :
    (∀ (word : List Char) (c : Char) (rest : List Char) (s : Source),
      isWordChar c = true →
      s.string.drop s.index = word ++ c :: rest →
      (token (kwRegexp word)).parse s = POut.noMatch) ∧
    ID.parse ⟨"iffy".toList, 0⟩ = POut.ok "iffy".toList ⟨"iffy".toList, 4⟩ ∧
    IF.parse ⟨"iffy".toList, 0⟩ = POut.noMatch ∧
    FUNCTION.parse ⟨"iffy".toList, 0⟩ = POut.noMatch ∧
    WHILE.parse ⟨"iffy".toList, 0⟩ = POut.noMatch ∧
    ELSE.parse ⟨"iffy".toList, 0⟩ = POut.noMatch ∧
    RETURN.parse ⟨"iffy".toList, 0⟩ = POut.noMatch ∧
    VAR.parse ⟨"iffy".toList, 0⟩ = POut.noMatch := by
  refine ⟨?_, rfl, rfl, rfl, rfl, rfl, rfl, rfl⟩
  intro word c rest s hc hdrop
  show ((Parser.regexp (kwRegexp word)).bind fun value =>
    ignored.and (Parser.constant value)).parse s = POut.noMatch
  simp only [Parser.bind, Parser.regexp, Source.matchRegexp, hdrop,
    kwRegexp_word_char word c rest hc]

/-- Witness for C10's general whole-word property at the `"iffy"` input. -/
theorem C10_witness :
    (token (kwRegexp "if".toList)).parse ⟨"iffy".toList, 0⟩ = POut.noMatch :=
  C10_keyword_boundary.1 "if".toList 'f' "y".toList ⟨"iffy".toList, 0⟩
    (by decide) (by decide)
